import Mathlib

/-!
Verification of the field-mapping compiler core of the `relate` repository
(crates/relate-macros).  The Rust source is shallowly embedded: proc-macro2
token trees become an inductive type, `syn::Expr` default expressions are
modelled by their syntactic kind together with their token stream (the only
two observables the source uses), and the code-generation functions of
`core/codegen.rs`, `core/types.rs`, `relate/generator.rs` and
`from_derive/generator.rs` become executable Lean functions over those types.
-/

namespace Relate

/-- Delimiter of a proc-macro2 `Group`. -/
inductive Delim where
  | paren
  | bracket
  | brace
  deriving DecidableEq, Repr

/-- A proc-macro2 `TokenTree`: identifier, punctuation character, literal,
or delimited group containing a nested token stream. -/
inductive TokenTree where
  | ident (s : String)
  | punct (c : Char)
  | lit (s : String)
  | group (d : Delim) (ts : List TokenTree)
  deriving Repr

/-- Is this (optional) token a `.` punctuation?  (Used for the
`preceded_by_dot` tests on `tokens_vec[i - 1]` in the source.) -/
def isDotTok : Option TokenTree → Bool
  | some (.punct c) => c == '.'
  | _ => false

/-- A token stream is a list of token trees. -/
abbrev TokenStream := List TokenTree

/-- Opening character of a delimiter. -/
def Delim.openChar : Delim → Char
  | .paren => '('
  | .bracket => '['
  | .brace => '\x7b'

/-- Closing character of a delimiter. -/
def Delim.closeChar : Delim → Char
  | .paren => ')'
  | .bracket => ']'
  | .brace => '\x7d'

mutual

/-- Rendering of a single token tree as a string. -/
def ttToString : TokenTree → String
  | .ident s => s
  | .punct c => String.mk [c]
  | .lit s => s
  | .group d ts => String.mk [d.openChar] ++ tsToString ts ++ String.mk [d.closeChar]

/-- Rendering of a token stream: tokens joined by single spaces.  This models
proc-macro2 `Display`; the exact spacing between sibling tokens is irrelevant
to every use below because `get_usage_key` strips all spaces. -/
def tsToString : List TokenTree → String
  | [] => ""
  | [t] => ttToString t
  | t :: rest => ttToString t ++ " " ++ tsToString rest

end

/-- `tokens_contain_call` (core/codegen.rs): does the stream contain a
parenthesised group anywhere (a function or method call)? -/
def tokens_contain_call : List TokenTree → Bool
  | [] => false
  | .group d ts :: rest =>
      (d == Delim.paren || tokens_contain_call ts) || tokens_contain_call rest
  | _ :: rest => tokens_contain_call rest

/-- `tokens_contain_question_mark` (core/types.rs). -/
def tokens_contain_question_mark : List TokenTree → Bool
  | [] => false
  | .punct c :: rest => c == '?' || tokens_contain_question_mark rest
  | .group _ ts :: rest =>
      tokens_contain_question_mark ts || tokens_contain_question_mark rest
  | _ :: rest => tokens_contain_question_mark rest

/-- Auxiliary recursion for `replace_underscore_in_tokens`, carrying the
previous token of the original stream (`tokens_vec[i - 1]` in the source). -/
def replaceUnderscoreAux (field : String) : Option TokenTree → List TokenTree → List TokenTree
  | _, [] => []
  | prev, tt :: rest =>
      let out : List TokenTree :=
        match tt with
        | .ident s =>
            if s = "_" then
              -- preceded by a dot: insert just the field name;
              -- standalone: insert `.field` to normalize
              if isDotTok prev then [.ident field]
              else [.punct '.', .ident field]
            else [.ident s]
        | .group d ts => [.group d (replaceUnderscoreAux field none ts)]
        | other => [other]
      out ++ replaceUnderscoreAux field (some tt) rest

/-- `replace_underscore_in_tokens` (core/types.rs): replace `_` with the field
name, inserting a leading dot when the `_` is not already preceded by one. -/
def replace_underscore_in_tokens (tokens : List TokenTree) (field : String) : List TokenTree :=
  replaceUnderscoreAux field none tokens

/-- `is_keyword` (core/types.rs): Rust keywords that start an expression
context, so a following `.field` is a source access. -/
def is_keyword (s : String) : Bool :=
  s = "if" || s = "else" || s = "match" || s = "while" || s = "for" || s = "loop" ||
  s = "return" || s = "break" || s = "continue" || s = "let" || s = "const" ||
  s = "static" || s = "fn" || s = "pub" || s = "mod" || s = "use" || s = "struct" ||
  s = "enum" || s = "impl" || s = "trait" || s = "type" || s = "where" || s = "async" ||
  s = "await" || s = "move" || s = "ref" || s = "mut" || s = "as" || s = "in" ||
  s = "unsafe" || s = "extern" || s = "crate" || s = "self" || s = "super" ||
  s = "dyn" || s = "true" || s = "false"

/-- `is_preceded_by_base` (core/types.rs), phrased on the previous token of the
original stream (`tokens[idx - 1]`; `none` models `idx == 0`). -/
def is_preceded_by_base (prev : Option TokenTree) : Bool :=
  match prev with
  | none => false
  | some (.ident s) => !is_keyword s
  | some (.group _ _) => true
  | some (.punct c) => c == ')' || c == ']' || c == '\x7d' || c == '?'
  | some (.lit _) => false

/-- Auxiliary recursion for `transform_with_expr_tokens`, carrying the previous
original token; the next original token is the head of the remainder. -/
def transformWithExprAux (field : String) : Option TokenTree → List TokenTree → List TokenTree
  | _, [] => []
  | prev, tt :: rest =>
      let out : List TokenTree :=
        match tt with
        | .ident s =>
            if s = "_" then
              if isDotTok prev then [.ident field]
              else [.ident ("src"), .punct '.', .ident field]
            else [.ident s]
        | .punct c =>
            if c = '.' then
              let nextIsIdent :=
                match rest with
                | .ident _ :: _ => true
                | _ => false
              if nextIsIdent && !is_preceded_by_base prev then
                [.ident ("src"), .punct '.']
              else [.punct '.']
            else [.punct c]
        | .group d ts => [.group d (transformWithExprAux field none ts)]
        | other => [other]
      out ++ transformWithExprAux field (some tt) rest

/-- `transform_with_expr_tokens` (core/types.rs): replace `_` with
`src.<field>` and insert `src` before every source-access `.ident`. -/
def transform_with_expr_tokens (tokens : List TokenTree) (field : String) : List TokenTree :=
  transformWithExprAux field none tokens

/-- `replace_placeholder` (core/codegen.rs): replace every `_` identifier with
the given replacement identifier, recursing into groups. -/
def replace_placeholder : List TokenTree → String → List TokenTree
  | [], _ => []
  | .ident s :: rest, repl =>
      (if s = "_" then TokenTree.ident repl else TokenTree.ident s) ::
        replace_placeholder rest repl
  | .group d ts :: rest, repl =>
      .group d (replace_placeholder ts repl) :: replace_placeholder rest repl
  | other :: rest, repl => other :: replace_placeholder rest repl

/-! ## Data model (core/types.rs) -/

/-- `CloneMode` (core/types.rs). -/
inductive CloneMode where
  | auto
  | cloned
  | move
  | copy
  deriving DecidableEq, Repr

/-- Syntactic kind of a `syn::Expr`.  The source only ever inspects whether a
default expression is `Expr::Call` or `Expr::MethodCall` (`is_hoistable`); all
other kinds are collapsed into `otherKind`. -/
inductive ExprKind where
  | call
  | methodCall
  | otherKind
  deriving DecidableEq, Repr

/-- A `syn::Expr` as the source observes it: its syntactic kind plus its token
stream (`to_token_stream`). -/
structure SynExpr where
  kind : ExprKind
  tokens : List TokenTree

/-- `Transform` (core/types.rs). -/
inductive Transform where
  | identity
  | withExpr (tokens : List TokenTree) (fallible : Bool)
  | collectionMap (tokens : List TokenTree)
  | default
  | defaultExpr (expr : SynExpr)

/-- `Transform::is_identity`. -/
def Transform.is_identity : Transform → Bool
  | .identity => true
  | _ => false

/-- `Transform::is_default_kind`. -/
def Transform.is_default_kind : Transform → Bool
  | .default => true
  | .defaultExpr _ => true
  | _ => false

/-- `Transform::is_fallible`. -/
def Transform.is_fallible : Transform → Bool
  | .withExpr _ fallible => fallible
  | .collectionMap tokens => tokens_contain_question_mark tokens
  | _ => false

/-- `FieldSource` (core/types.rs).  Identifiers are modelled as strings. -/
structure FieldSource where
  field_name : Option String
  transform : Transform
  clone_mode : Option CloneMode

/-- `FieldSource::auto`. -/
def FieldSource.auto : FieldSource :=
  { field_name := none, transform := .identity, clone_mode := none }

/-- `FieldSource::default_value`. -/
def FieldSource.default_value : FieldSource :=
  { field_name := none, transform := .default, clone_mode := none }

/-- `FieldSource::get_field_name`: the effective source field name, falling
back to the target field. -/
def FieldSource.get_field_name (s : FieldSource) (target : String) : String :=
  s.field_name.getD target

/-- `FieldSource::reads_field`. -/
def FieldSource.reads_field (s : FieldSource) : Bool :=
  !s.transform.is_default_kind

/-- Remove every space character (Rust `str::replace(' ', "")`). -/
def stripSpaces (s : String) : String :=
  String.mk (s.data.filter (fun c => c ≠ ' '))

/-- Strip all leading dots (Rust `str::trim_start_matches('.')`). -/
def trimLeadingDots (s : String) : String :=
  String.mk (s.data.dropWhile (fun c => c = '.'))

/-- `FieldSource::get_usage_key` (core/types.rs): for `WithExpr`, the
underscore-normalized token text with spaces removed and leading dots
trimmed; for `CollectionMap`, the raw token text; otherwise the effective
source field name. -/
def FieldSource.get_usage_key (s : FieldSource) (target : String) : String :=
  match s.transform with
  | .withExpr tokens _ =>
      let normalized := replace_underscore_in_tokens tokens target
      trimLeadingDots (stripSpaces (tsToString normalized))
  | .collectionMap tokens => tsToString tokens
  | _ => s.get_field_name target

/-- `FieldMapping` (core/types.rs). -/
structure FieldMapping where
  target_field : String
  source : FieldSource

/-- `FieldUsage` (core/codegen.rs). -/
structure FieldUsage where
  count : Nat
  last_index : Nat
  deriving DecidableEq, Repr

/-! ## Usage analysis (core/codegen.rs) -/

/-- Association-list model of the `HashMap<String, FieldUsage>`; lookup
returns the value of the first (unique) entry with the given key. -/
def usageLookup (m : List (String × FieldUsage)) (k : String) : Option FieldUsage :=
  (m.find? (fun p => p.1 = k)).map (fun p => p.2)

/-- One `entry(key).and_modify(...).or_insert(...)` step of
`count_field_usage`: bump the count and set the last index if the key is
present, otherwise insert a fresh `FieldUsage` with count 1. -/
def bumpUsage (m : List (String × FieldUsage)) (k : String) (index : Nat) :
    List (String × FieldUsage) :=
  if (m.find? (fun p => p.1 = k)).isSome then
    m.map (fun p => if p.1 = k then (p.1, ⟨p.2.count + 1, index⟩) else p)
  else
    m ++ [(k, ⟨1, index⟩)]

/-- The enumerated iteration of `count_field_usage`, starting at index `i`. -/
def countFieldUsageGo (i : Nat) (ms : List FieldMapping)
    (acc : List (String × FieldUsage)) : List (String × FieldUsage) :=
  match ms with
  | [] => acc
  | m :: rest =>
      if m.source.reads_field then
        countFieldUsageGo (i + 1) rest
          (bumpUsage acc (m.source.get_usage_key m.target_field) i)
      else
        countFieldUsageGo (i + 1) rest acc

/-- `count_field_usage` (core/codegen.rs): per usage key, how many
source-reading mappings use it and the index of the last one. -/
def count_field_usage (ms : List FieldMapping) : List (String × FieldUsage) :=
  countFieldUsageGo 0 ms []

/-- `count_reverse_field_usage` (core/codegen.rs): per target-field name, the
number of non-default mappings with that target (a `HashMap<String, usize>`,
modelled extensionally; the generator reads it via `.get(..).unwrap_or(0)`). -/
def count_reverse_field_usage (ms : List FieldMapping) (k : String) : Nat :=
  (ms.filter (fun m =>
    !m.source.transform.is_default_kind && m.target_field = k)).length

/-! ## Clone policy and field emission (core/codegen.rs) -/

/-- `should_clone_field` (core/codegen.rs): the six-rule first-match clone
decision.  The usage table is passed as a lookup function (the source only
calls `field_usage.get`). -/
def should_clone_field (mapping : FieldMapping) (field_index : Nat) (is_ref : Bool)
    (field_usage : String → Option FieldUsage) (effective_clone_mode : CloneMode) : Bool :=
  -- Never clone if we don't read a field
  if !mapping.source.reads_field then false
  -- Copy mode: user asserts type is Copy, never clone
  else if effective_clone_mode = CloneMode.copy then false
  -- Cloned mode: always clone
  else if effective_clone_mode = CloneMode.cloned then true
  -- Ref impl: must clone (can't move out of reference)
  else if is_ref then true
  -- Move mode: never clone in owned impl
  else if effective_clone_mode = CloneMode.move then false
  -- Auto mode: clone only multi-use fields (except last use of Identity)
  else
    match field_usage (mapping.source.get_usage_key mapping.target_field) with
    | none => false
    | some usage =>
        if usage.count ≤ 1 then false
        else !(mapping.source.transform.is_identity && field_index == usage.last_index)

/-- Tokens of a fully-qualified leading-`::` path such as
`::core::default::Default`. -/
def pathTokens : List String → List TokenTree
  | [] => []
  | seg :: rest => [.punct ':', .punct ':', .ident seg] ++ pathTokens rest

/-- `field_access` (core/codegen.rs): `src.field` or `src.field.clone()`. -/
def field_access (field : String) (should_clone : Bool) : List TokenTree :=
  if should_clone then
    [.ident ("src"), .punct '.', .ident field, .punct '.', .ident ("clone"),
     .group .paren []]
  else
    [.ident ("src"), .punct '.', .ident field]

/-- `generate_field_init` (core/codegen.rs): the `#target: #value` tokens of a
single field initializer. -/
def generate_field_init (mapping : FieldMapping) (field_index : Nat) (is_ref : Bool)
    (field_usage : String → Option FieldUsage) (struct_clone_mode : CloneMode) :
    List TokenTree :=
  let target := mapping.target_field
  let source_field := mapping.source.get_field_name target
  -- Determine effective clone mode (field overrides struct)
  let effective_clone_mode := mapping.source.clone_mode.getD struct_clone_mode
  let should_clone :=
    should_clone_field mapping field_index is_ref field_usage effective_clone_mode
  let value : List TokenTree :=
    match mapping.source.transform with
    -- Default transforms don't use a source field value
    | .default =>
        pathTokens [("core"), ("default"), ("Default"), ("default")] ++ [.group .paren []]
    | .defaultExpr expr => expr.tokens
    -- Identity: direct field access
    | .identity => field_access source_field should_clone
    -- `with = expr`: transformed tokens, cloned only for call-free streams
    | .withExpr tokens fallible =>
        let transformed := transform_with_expr_tokens tokens source_field
        let needs_clone := should_clone && !tokens_contain_call tokens
        let value :=
          if needs_clone then
            [TokenTree.group .paren transformed, .punct '.', .ident ("clone"),
             .group .paren []]
          else transformed
        if fallible then value ++ [.punct '?'] else value
    -- Collection map: iterate, optionally `.cloned()`, map, collect
    | .collectionMap tokens =>
        let replaced := replace_placeholder tokens ("__item")
        if effective_clone_mode = CloneMode.cloned then
          [.ident ("src"), .punct '.', .ident source_field,
           .punct '.', .ident ("iter"), .group .paren [],
           .punct '.', .ident ("cloned"), .group .paren [],
           .punct '.', .ident ("map"),
           .group .paren
             ([.punct '|', .ident ("__item"), .punct '|'] ++
              pathTokens [("core"), ("convert"), ("Into"), ("into")] ++
              [.group .paren replaced]),
           .punct '.', .ident ("collect"), .group .paren []]
        else
          [.ident ("src"), .punct '.', .ident source_field,
           .punct '.', .ident ("iter"), .group .paren [],
           .punct '.', .ident ("map"),
           .group .paren ([.punct '|', .ident ("__item"), .punct '|'] ++ replaced),
           .punct '.', .ident ("collect"), .group .paren []]
  [.ident target, .punct ':'] ++ value

/-- `ReverseStrategy` (core/codegen.rs). -/
inductive ReverseStrategy where
  | identityOnly
  | allNonDefault
  deriving DecidableEq, Repr

/-- `generate_reverse_field_init` (core/codegen.rs): the reverse initializer
`#source_field: #value` for bidirectional relations, or `none` for mappings
that are skipped (default kinds; non-identity under `IdentityOnly`). -/
def generate_reverse_field_init (mapping : FieldMapping) (is_ref : Bool)
    (field_usage : String → Nat) (strategy : ReverseStrategy) :
    Option (List TokenTree) :=
  let target := mapping.target_field
  -- Skip fields that don't have simple reverse mappings
  if mapping.source.transform.is_default_kind then none
  -- For relate_structs!, only reverse identity transforms
  else if strategy = ReverseStrategy.identityOnly &&
      !mapping.source.transform.is_identity then none
  else
    let should_clone := is_ref || field_usage target > 1
    let value : List TokenTree :=
      if should_clone then
        [.ident ("src"), .punct '.', .ident target, .punct '.', .ident ("clone"),
         .group .paren []]
      else
        [.ident ("src"), .punct '.', .ident target]
    let source_field := mapping.source.get_field_name target
    some ([.ident source_field, .punct ':'] ++ value)

/-! ## The `relate_structs!` generator (relate/generator.rs)

Generics are elided from the relation model: they only contribute type
tokens to the emitted `impl` headers and play no part in field logic,
fallibility, reversal, or error reporting. -/

/-- `Direction` (relate/types.rs); the optional custom error type of
`TryForward` is modelled by its token text. -/
inductive Direction where
  | forward
  | bidirectional
  | tryForward (error : Option String)
  deriving DecidableEq, Repr

/-- `RelationBody` (relate/types.rs). -/
structure RelationBody where
  has_spread : Bool
  fields : List FieldMapping

/-- `ExistingRelation` (relate/types.rs), with generics elided. -/
structure ExistingRelation where
  source_name : String
  target_name : String
  direction : Direction
  body : Option RelationBody

/-- `has_fallible_fields` (relate/generator.rs). -/
def has_fallible_fields (fields : List FieldMapping) : Bool :=
  fields.any (fun f => f.source.transform.is_fallible)

/-- `effective_direction` (relate/generator.rs): auto-upgrade to `TryForward`
when fallible transforms are present; for `Bidirectional` only the forward
direction is upgraded. -/
def effective_direction (direction : Direction) (fields : List FieldMapping) : Direction :=
  if has_fallible_fields fields then
    match direction with
    | .forward => .tryForward none
    | .tryForward e => .tryForward e
    | .bidirectional => .tryForward none
  else direction

/-- One generated `impl` block, as far as the claims observe it: whether it is
`TryFrom` or `From`, whether the source is taken by reference, the resolved
error type (for `TryFrom`), the `let` bindings preceding the record
construction, and the ordered field initializers of the construction. -/
structure GenImpl where
  is_try : Bool
  by_ref : Bool
  src_type : String
  tgt_type : String
  error_type : Option String
  lets : List (String × List TokenTree)
  fields : List (List TokenTree)

/-- `generate_from_impl_pair` (relate/generator.rs): owned and reference
`From` impls.  The quote! template contains no `let` bindings. -/
def generate_from_impl_pair (src tgt : String)
    (owned_fields ref_fields : List (List TokenTree)) : List GenImpl :=
  [{ is_try := false, by_ref := false, src_type := src, tgt_type := tgt,
     error_type := none, lets := [], fields := owned_fields },
   { is_try := false, by_ref := true, src_type := src, tgt_type := tgt,
     error_type := none, lets := [], fields := ref_fields }]

/-- `generate_try_from_impl_pair` (relate/generator.rs): owned and reference
`TryFrom` impls with the given error type.  No `let` bindings. -/
def generate_try_from_impl_pair (src tgt err : String)
    (owned_fields ref_fields : List (List TokenTree)) : List GenImpl :=
  [{ is_try := true, by_ref := false, src_type := src, tgt_type := tgt,
     error_type := some err, lets := [], fields := owned_fields },
   { is_try := true, by_ref := true, src_type := src, tgt_type := tgt,
     error_type := some err, lets := [], fields := ref_fields }]

/-- `generate_existing_relation` (relate/generator.rs): validates the body,
counts usage, emits the forward pair according to the effective direction,
and appends the backward `From` pair for bidirectional requests (reverse
fields filtered under `IdentityOnly`).  Error messages are abbreviated. -/
def generate_existing_relation (r : ExistingRelation) : Except String (List GenImpl) :=
  match r.body with
  | none => .error ("cannot relate without fields: proc macros cannot introspect struct fields")
  | some body =>
      if body.has_spread && body.fields.isEmpty then
        .error ("cannot use spread alone with existing structs")
      else
        let fields := body.fields
        let field_usage := usageLookup (count_field_usage fields)
        let forward_fields := fields.enum.map
          (fun p => generate_field_init p.2 p.1 false field_usage CloneMode.auto)
        let forward_ref_fields := fields.enum.map
          (fun p => generate_field_init p.2 p.1 true field_usage CloneMode.auto)
        let fwd :=
          match effective_direction r.direction fields with
          | .tryForward custom =>
              let error_type := custom.getD ("::relate::ConversionError")
              generate_try_from_impl_pair r.source_name r.target_name error_type
                forward_fields forward_ref_fields
          | _ =>
              generate_from_impl_pair r.source_name r.target_name
                forward_fields forward_ref_fields
        let bwd :=
          if r.direction = Direction.bidirectional then
            let reverse_usage := count_reverse_field_usage fields
            let backward_fields := fields.filterMap
              (fun f => generate_reverse_field_init f false reverse_usage .identityOnly)
            let backward_ref_fields := fields.filterMap
              (fun f => generate_reverse_field_init f true reverse_usage .identityOnly)
            generate_from_impl_pair r.target_name r.source_name
              backward_fields backward_ref_fields
          else []
        .ok (fwd ++ bwd)

/-! ## The derive generator (from_derive/generator.rs, from_derive/parser.rs) -/

/-- `ConversionMode` (from_derive/types.rs); the custom error type is its
token text. -/
inductive ConversionMode where
  | infallible
  | fallible (error : Option String)
  deriving DecidableEq, Repr

/-- `determine_conversion_mode` (from_derive/parser.rs). -/
def determine_conversion_mode (fields : List FieldMapping)
    (explicit_error : Option String) (force_try_from : Bool) : ConversionMode :=
  if explicit_error.isSome then .fallible explicit_error
  else if force_try_from then .fallible none
  else if fields.any (fun f => f.source.transform.is_fallible) then .fallible none
  else .infallible

/-- `DefaultBindings::is_hoistable` (from_derive/generator.rs): only function
and method calls are safe to hoist. -/
def is_hoistable (e : SynExpr) : Bool :=
  e.kind == ExprKind.call || e.kind == ExprKind.methodCall

/-- Is a transform a `WithExpr`? -/
def Transform.is_with_expr : Transform → Bool
  | .withExpr _ _ => true
  | _ => false

/-- The texts of all hoistable default expressions, in field order (the
multiset underlying `expr_counts` in `DefaultBindings::new`). -/
def hoistableDefaultTexts (fields : List FieldMapping) : List String :=
  fields.filterMap (fun f =>
    match f.source.transform with
    | .defaultExpr e => if is_hoistable e then some (tsToString e.tokens) else none
    | _ => none)

/-- First occurrence of each element, in order (deduplication). -/
def firstOccurrences : List String → List String
  | [] => []
  | k :: rest => k :: firstOccurrences (rest.filter (fun x => x ≠ k))
termination_by l => l.length
decreasing_by
  exact Nat.lt_succ_of_le (List.length_filter_le _ _)

/-- The keys that receive a `__default_i` binding: hoistable default
expression texts used more than once.  The source assigns indices while
iterating a `HashMap`, whose order is unspecified; first-occurrence order is
fixed here (no claim depends on the specific index). -/
def defaultBindingKeys (fields : List FieldMapping) : List String :=
  (firstOccurrences (hoistableDefaultTexts fields)).filter
    (fun k => 1 < (hoistableDefaultTexts fields).count k)

/-- The binding-creation loop of `DefaultBindings::new`: each key receives
the name `__default_<idx>` with an incrementing index, paired with its usage
count. -/
def defaultBindingsGo (fields : List FieldMapping) (idx : Nat) :
    List String → List (String × String × Nat)
  | [] => []
  | k :: rest =>
      (k, "__default_" ++ toString idx, (hoistableDefaultTexts fields).count k) ::
        defaultBindingsGo fields (idx + 1) rest

/-- The `bindings` map of `DefaultBindings`: expression text to binding name
and usage count. -/
def defaultBindings (fields : List FieldMapping) : List (String × String × Nat) :=
  defaultBindingsGo fields 0 (defaultBindingKeys fields)

/-- `DefaultBindings::get_binding_with_count`: look up by expression text. -/
def get_binding_with_count (fields : List FieldMapping) (e : SynExpr) :
    Option (String × Nat) :=
  ((defaultBindings fields).find? (fun p => p.1 = tsToString e.tokens)).map
    (fun p => p.2)

/-- `DefaultBindings::generate_let_bindings`: one `let __default_i = expr;`
per bound expression, emitted at its first consuming field, each key once. -/
def defaultLetsGo (fields : List FieldMapping)
    (binds : List (String × String × Nat)) (seen : List String) :
    List (String × List TokenTree) :=
  match fields with
  | [] => []
  | f :: rest =>
      match f.source.transform with
      | .defaultExpr e =>
          let key := tsToString e.tokens
          match binds.find? (fun p => p.1 = key) with
          | none => defaultLetsGo rest binds seen
          | some p =>
              if key ∈ seen then defaultLetsGo rest binds seen
              else (p.2.1, e.tokens) :: defaultLetsGo rest binds (key :: seen)
      | _ => defaultLetsGo rest binds seen

/-- The emitted default-expression `let` bindings of a field list. -/
def defaultLets (fields : List FieldMapping) : List (String × List TokenTree) :=
  defaultLetsGo fields (defaultBindings fields) []

/-- `WithExprBindings::get_binding`: every `WithExpr` field gets the binding
`__with_<target>`, keyed by target-field name. -/
def with_expr_binding (fields : List FieldMapping) (name : String) : Option String :=
  if fields.any (fun f => f.target_field = name && f.source.transform.is_with_expr) then
    some ("__with_" ++ name)
  else none

/-- Loop body of `WithExprBindings::generate_let_bindings`: the binding
emitted for one field (none when the field is not a `WithExpr`). -/
def withExprLetEntry (fields : List FieldMapping) (is_ref : Bool)
    (field_usage : String → Option FieldUsage) (f : FieldMapping) :
    Option (String × List TokenTree) :=
  match f.source.transform with
  | .withExpr tokens fallible =>
      match with_expr_binding fields f.target_field with
      | none => none
      | some binding_name =>
          let transformed := transform_with_expr_tokens tokens f.target_field
          let is_simple_field := !tokens_contain_call tokens
          let usage_key := f.source.get_usage_key f.target_field
          let is_multi_use :=
            match field_usage usage_key with
            | some u => 1 < u.count
            | none => false
          let needs_clone := is_simple_field && (is_ref || is_multi_use)
          let value :=
            if needs_clone then
              [TokenTree.group .paren transformed, .punct '.', .ident ("clone"),
               .group .paren []]
            else transformed
          let value := if fallible then value ++ [TokenTree.punct '?'] else value
          some (binding_name, value)
  | _ => none

/-- `WithExprBindings::generate_let_bindings`: one `let __with_f = value;`
per `WithExpr` field, in declaration order, evaluated before any field is
moved out of `src`. -/
def withExprLets (fields : List FieldMapping) (is_ref : Bool)
    (field_usage : String → Option FieldUsage) : List (String × List TokenTree) :=
  fields.filterMap (withExprLetEntry fields is_ref field_usage)

/-- `FieldGenerator::let_bindings`: `WithExpr` bindings first, then default
bindings. -/
def field_generator_let_bindings (fields : List FieldMapping) (is_ref : Bool)
    (field_usage : String → Option FieldUsage) : List (String × List TokenTree) :=
  withExprLets fields is_ref field_usage ++ defaultLets fields

/-- `FieldGenerator::field_init`: use the hoisted `__with_` binding for
`WithExpr` fields, the hoisted `__default_i` binding (optionally cloned) for
bound default expressions, and `generate_field_init` otherwise. -/
def field_generator_field_init (fields : List FieldMapping) (clone_mode : CloneMode)
    (field_usage : String → Option FieldUsage) (mapping : FieldMapping)
    (field_index : Nat) (is_ref : Bool) : List TokenTree :=
  let target := mapping.target_field
  match with_expr_binding fields target with
  | some binding => [.ident target, .punct ':', .ident binding]
  | none =>
      match mapping.source.transform with
      | .defaultExpr expr =>
          match get_binding_with_count fields expr with
          | some (binding, count) =>
              let mode := mapping.source.clone_mode.getD clone_mode
              let needs_clone :=
                match mode with
                | .move => false
                | .copy => false
                | .cloned => true
                | .auto => is_ref || 1 < count
              if needs_clone then
                [.ident target, .punct ':', .ident binding, .punct '.',
                 .ident ("clone"), .group .paren []]
              else
                [.ident target, .punct ':', .ident binding]
          | none => generate_field_init mapping field_index is_ref field_usage clone_mode
      | _ => generate_field_init mapping field_index is_ref field_usage clone_mode

/-- `FieldGenerator::field_inits`. -/
def field_generator_field_inits (fields : List FieldMapping) (clone_mode : CloneMode)
    (field_usage : String → Option FieldUsage) (is_ref : Bool) :
    List (List TokenTree) :=
  fields.enum.map (fun p =>
    field_generator_field_init fields clone_mode field_usage p.2 p.1 is_ref)

/-- `FromDeriveInput` (from_derive/types.rs), generics elided. -/
structure FromDeriveInput where
  target_name : String
  source_type : String
  bidirectional : Bool
  fields : List FieldMapping
  clone_mode : CloneMode
  conversion_mode : ConversionMode

/-- `generate_from_impl` (from_derive/generator.rs): the `From` pair with
hoisted bindings, plus the reverse pair (strategy `AllNonDefault`, no
bindings) when bidirectional. -/
def generate_from_impl (input : FromDeriveInput) : List GenImpl :=
  let field_usage := usageLookup (count_field_usage input.fields)
  let fwd : List GenImpl :=
    [{ is_try := false, by_ref := false, src_type := input.source_type,
       tgt_type := input.target_name, error_type := none,
       lets := field_generator_let_bindings input.fields false field_usage,
       fields := field_generator_field_inits input.fields input.clone_mode field_usage false },
     { is_try := false, by_ref := true, src_type := input.source_type,
       tgt_type := input.target_name, error_type := none,
       lets := field_generator_let_bindings input.fields true field_usage,
       fields := field_generator_field_inits input.fields input.clone_mode field_usage true }]
  let bwd : List GenImpl :=
    if input.bidirectional then
      let reverse_usage := count_reverse_field_usage input.fields
      [{ is_try := false, by_ref := false, src_type := input.target_name,
         tgt_type := input.source_type, error_type := none, lets := [],
         fields := input.fields.filterMap
           (fun f => generate_reverse_field_init f false reverse_usage .allNonDefault) },
       { is_try := false, by_ref := true, src_type := input.target_name,
         tgt_type := input.source_type, error_type := none, lets := [],
         fields := input.fields.filterMap
           (fun f => generate_reverse_field_init f true reverse_usage .allNonDefault) }]
    else []
  fwd ++ bwd

/-- `generate_try_from_impl` (from_derive/generator.rs): the `TryFrom` pair
with hoisted bindings and the resolved error type; no reverse pair. -/
def generate_try_from_impl (input : FromDeriveInput) (error_type : Option String) :
    List GenImpl :=
  let error := error_type.getD ("::relate::ConversionError")
  let field_usage := usageLookup (count_field_usage input.fields)
  [{ is_try := true, by_ref := false, src_type := input.source_type,
     tgt_type := input.target_name, error_type := some error,
     lets := field_generator_let_bindings input.fields false field_usage,
     fields := field_generator_field_inits input.fields input.clone_mode field_usage false },
   { is_try := true, by_ref := true, src_type := input.source_type,
     tgt_type := input.target_name, error_type := some error,
     lets := field_generator_let_bindings input.fields true field_usage,
     fields := field_generator_field_inits input.fields input.clone_mode field_usage true }]

/-- `generate_from_derive` (from_derive/generator.rs). -/
def generate_from_derive (input : FromDeriveInput) : List GenImpl :=
  match input.conversion_mode with
  | .infallible => generate_from_impl input
  | .fallible error_type => generate_try_from_impl input error_type

/-! ## Helper predicates and lemmas -/

/-- Does a token stream contain an `_` identifier anywhere (including inside
groups)? -/
def noUnderscore : List TokenTree → Bool
  | [] => true
  | .ident s :: rest => !(s == "_") && noUnderscore rest
  | .group _ ts :: rest => noUnderscore ts && noUnderscore rest
  | _ :: rest => noUnderscore rest

/-- Does a token stream contain the given identifier anywhere? -/
def containsIdent (name : String) : List TokenTree → Bool
  | [] => false
  | .ident s :: rest => s == name || containsIdent name rest
  | .group _ ts :: rest => containsIdent name ts || containsIdent name rest
  | _ :: rest => containsIdent name rest

/-- How many source-reading mappings of `ms` have usage key `k`. -/
def usageOccurrences (ms : List FieldMapping) (k : String) : Nat :=
  (ms.filter (fun m =>
    m.source.reads_field && m.source.get_usage_key m.target_field = k)).length

theorem noUnderscore_append (a b : List TokenTree) :
    noUnderscore (a ++ b) = (noUnderscore a && noUnderscore b) := by
  induction a with
  | nil => simp [noUnderscore]
  | cons t rest ih =>
    cases t <;> simp [noUnderscore, ih, Bool.and_assoc]

theorem noUnderscore_replace (f : String) (hf : f ≠ "_") :
    ∀ (prev : Option TokenTree) (ts : List TokenTree),
      noUnderscore (replaceUnderscoreAux f prev ts) = true := by
  intro prev ts
  induction prev, ts using replaceUnderscoreAux.induct f with
  | case1 prev => simp [replaceUnderscoreAux, noUnderscore]
  | case2 prev tt rest ih2 ih1 =>
    cases tt with
    | ident s =>
        by_cases hs : s = "_"
        · subst hs
          cases h : isDotTok prev <;>
            simp [replaceUnderscoreAux, h, noUnderscore_append, noUnderscore, ih1, hf]
        · simp [replaceUnderscoreAux, hs, noUnderscore_append, noUnderscore, ih1]
    | punct c => simp [replaceUnderscoreAux, noUnderscore_append, noUnderscore, ih1]
    | lit s => simp [replaceUnderscoreAux, noUnderscore_append, noUnderscore, ih1]
    | group d ts =>
        simp [replaceUnderscoreAux, noUnderscore_append, noUnderscore, ih1]
        exact ih2

theorem replace_of_noUnderscore (f : String) :
    ∀ (prev : Option TokenTree) (ts : List TokenTree),
      noUnderscore ts = true → replaceUnderscoreAux f prev ts = ts := by
  intro prev ts
  induction prev, ts using replaceUnderscoreAux.induct f with
  | case1 prev => intro _; simp [replaceUnderscoreAux]
  | case2 prev tt rest ih2 ih1 =>
    intro h
    cases tt with
    | ident s =>
        have hs : ¬ (s = "_") := by
          simp [noUnderscore] at h; intro hc; simp [hc] at h
        have hrest : noUnderscore rest = true := by
          simp [noUnderscore] at h; exact h.2
        simp [replaceUnderscoreAux, hs, ih1 hrest]
    | punct c =>
        simp [noUnderscore] at h
        simp [replaceUnderscoreAux, ih1 h]
    | lit s =>
        simp [noUnderscore] at h
        simp [replaceUnderscoreAux, ih1 h]
    | group d ts =>
        simp [noUnderscore] at h
        simp [replaceUnderscoreAux, ih1 h.2, ih2 h.1]

/-- Computation of the usage key of a plain `.f` access: rendering, space
stripping and leading-dot trimming give back the bare name. -/
theorem dotIdentKey (f : String) (hne : f ≠ "")
    (hchars : ∀ c ∈ f.data, c ≠ ' ' ∧ c ≠ '.') :
    trimLeadingDots (stripSpaces (tsToString [TokenTree.punct '.', TokenTree.ident f])) = f := by
  have hdata : (tsToString [TokenTree.punct '.', TokenTree.ident f]).data = '.' :: ' ' :: f.data := by
    simp [tsToString, ttToString, String.data_append]
  have hdne : f.data ≠ [] := by
    intro h
    apply hne
    cases f with
    | mk d => simp at h; simp [h]
  unfold stripSpaces trimLeadingDots
  rw [hdata]
  obtain ⟨c, cs, hcons⟩ := List.exists_cons_of_ne_nil hdne
  have hcdot : ¬ (c = '.') := by
    refine (hchars c ?_).2
    rw [hcons]; exact List.mem_cons_self c cs
  have : (('.' :: ' ' :: f.data).filter (fun c => decide (c ≠ ' '))) = '.' :: f.data := by
    simp [List.filter_cons]
    exact fun a ha => (hchars a ha).1
  rw [this]
  rw [List.dropWhile_cons]
  simp only [decide_eq_true_eq, if_pos rfl]
  rw [hcons, List.dropWhile_cons]
  simp [hcdot]
  cases f with
  | mk d => simp at hcons; simp [hcons]

/-! ## Claims -/

/-- C9: placeholder normalization is idempotent: for every expression token
stream `e` and field name `f` (field names are never the placeholder `_`),
`replace_underscore_in_tokens (replace_underscore_in_tokens e f) f` equals
`replace_underscore_in_tokens e f`. -/
theorem C9_normalization_idempotent (e : List TokenTree) (f : String) (hf : f ≠ "_") :
    replace_underscore_in_tokens (replace_underscore_in_tokens e f) f =
      replace_underscore_in_tokens e f :=
  replace_of_noUnderscore f none _ (noUnderscore_replace f hf none e)

/-- Witness for C9 at a concrete expression containing both placeholder
idioms and a nested group. -/
theorem C9_normalization_idempotent_witness :
    replace_underscore_in_tokens (replace_underscore_in_tokens
      [.ident "_", .group .paren [.punct '.', .ident "_"]] "v") "v" =
      replace_underscore_in_tokens [.ident "_", .group .paren [.punct '.', .ident "_"]] "v" :=
  C9_normalization_idempotent _ "v" (by decide)

/-- C8: for every (valid, distinct) field names `f` and `g`, the usage keys of
the with-expressions `_`, `._` and `.f` for target field `f` all equal the
usage key of an identity mapping of `f` (namely `f` itself), while the
with-expression `.g` accessing a different source field yields a different
key. -/
theorem C8_placeholder_keys_coincide (f g : String)
    (hf0 : f ≠ "") (hf1 : f ≠ "_") (hfc : ∀ c ∈ f.data, c ≠ ' ' ∧ c ≠ '.')
    (hg0 : g ≠ "") (hg1 : g ≠ "_") (hgc : ∀ c ∈ g.data, c ≠ ' ' ∧ c ≠ '.')
    (hfg : f ≠ g) :
    (FieldSource.mk none (.withExpr [.ident "_"] false) none).get_usage_key f = f ∧
    (FieldSource.mk none (.withExpr [.punct '.', .ident "_"] false) none).get_usage_key f = f ∧
    (FieldSource.mk none (.withExpr [.punct '.', .ident f] false) none).get_usage_key f = f ∧
    FieldSource.auto.get_usage_key f = f ∧
    (FieldSource.mk none (.withExpr [.punct '.', .ident g] false) none).get_usage_key f ≠
      (FieldSource.mk none (.withExpr [.punct '.', .ident f] false) none).get_usage_key f := by
  have hnorm1 :
      replace_underscore_in_tokens [TokenTree.ident ("_")] f =
        [TokenTree.punct '.', TokenTree.ident f] := by
    simp [replace_underscore_in_tokens, replaceUnderscoreAux, isDotTok]
  have hnorm2 :
      replace_underscore_in_tokens [TokenTree.punct '.', TokenTree.ident ("_")] f =
        [TokenTree.punct '.', TokenTree.ident f] := by
    simp [replace_underscore_in_tokens, replaceUnderscoreAux, isDotTok]
  have hnorm3 :
      replace_underscore_in_tokens [TokenTree.punct '.', TokenTree.ident f] f =
        [TokenTree.punct '.', TokenTree.ident f] := by
    simp [replace_underscore_in_tokens, replaceUnderscoreAux, isDotTok, hf1]
  have hnorm4 :
      replace_underscore_in_tokens [TokenTree.punct '.', TokenTree.ident g] f =
        [TokenTree.punct '.', TokenTree.ident g] := by
    simp [replace_underscore_in_tokens, replaceUnderscoreAux, isDotTok, hg1]
  refine ⟨?_, ?_, ?_, ?_, ?_⟩
  · show trimLeadingDots (stripSpaces (tsToString
        (replace_underscore_in_tokens [TokenTree.ident ("_")] f))) = f
    rw [hnorm1]; exact dotIdentKey f hf0 hfc
  · show trimLeadingDots (stripSpaces (tsToString
        (replace_underscore_in_tokens [TokenTree.punct '.', TokenTree.ident ("_")] f))) = f
    rw [hnorm2]; exact dotIdentKey f hf0 hfc
  · show trimLeadingDots (stripSpaces (tsToString
        (replace_underscore_in_tokens [TokenTree.punct '.', TokenTree.ident f] f))) = f
    rw [hnorm3]; exact dotIdentKey f hf0 hfc
  · rfl
  · show trimLeadingDots (stripSpaces (tsToString
        (replace_underscore_in_tokens [TokenTree.punct '.', TokenTree.ident g] f))) ≠
      trimLeadingDots (stripSpaces (tsToString
        (replace_underscore_in_tokens [TokenTree.punct '.', TokenTree.ident f] f)))
    rw [hnorm3, hnorm4, dotIdentKey f hf0 hfc, dotIdentKey g hg0 hgc]
    exact fun h => hfg h.symm

/-- Witness for C8 at `f = "name"`, `g = "value"`. -/
theorem C8_placeholder_keys_coincide_witness :
    (FieldSource.mk none (.withExpr [.ident "_"] false) none).get_usage_key ("name") = ("name") ∧
    (FieldSource.mk none (.withExpr [.punct '.', .ident "_"] false) none).get_usage_key ("name") = ("name") ∧
    (FieldSource.mk none (.withExpr [.punct '.', .ident ("name")] false) none).get_usage_key ("name") = ("name") ∧
    FieldSource.auto.get_usage_key ("name") = ("name") ∧
    (FieldSource.mk none (.withExpr [.punct '.', .ident ("value")] false) none).get_usage_key ("name") ≠
      (FieldSource.mk none (.withExpr [.punct '.', .ident ("name")] false) none).get_usage_key ("name") :=
  C8_placeholder_keys_coincide ("name") ("value") (by decide) (by decide) (by decide)
    (by decide) (by decide) (by decide) (by decide)

/-- C10: in the rendering rewrite of a with-expression, a dot followed by an
identifier is prefixed with the source binding `src` exactly when the token
before the dot is absent, a literal, a punctuation other than the closing
brackets and the question mark, or a Rust keyword identifier; a dot after a
question mark, after a non-keyword identifier, or after a group is left
untouched, while a dot after the keyword `else` is rewritten into a fresh
source access. -/
theorem C10_dot_prefix_rule :
    (∀ (field : String) (prev : Option TokenTree) (s : String) (rest : List TokenTree),
        transformWithExprAux field prev (.punct '.' :: .ident s :: rest) =
          (if is_preceded_by_base prev then ([] : List TokenTree)
            else [TokenTree.ident ("src")]) ++
            TokenTree.punct '.' ::
              transformWithExprAux field (some (.punct '.')) (.ident s :: rest)) ∧
    is_preceded_by_base none = false ∧
    (∀ l, is_preceded_by_base (some (.lit l)) = false) ∧
    (∀ c, c ≠ ')' → c ≠ ']' → c ≠ '\x7d' → c ≠ '?' →
        is_preceded_by_base (some (.punct c)) = false) ∧
    is_preceded_by_base (some (.punct '?')) = true ∧
    (∀ s, is_keyword s = false → is_preceded_by_base (some (.ident s)) = true) ∧
    (is_keyword ("else") = true ∧ is_preceded_by_base (some (.ident ("else"))) = false) ∧
    (∀ d ts, is_preceded_by_base (some (.group d ts)) = true) := by
  refine ⟨?_, rfl, fun l => rfl, ?_, rfl, ?_, ⟨by decide, by decide⟩, fun d ts => rfl⟩
  · intro field prev s rest
    cases hb : is_preceded_by_base prev <;>
      simp [transformWithExprAux, hb]
  · intro c h1 h2 h3 h4
    simp [is_preceded_by_base, h1, h2, h3, h4]
  · intro s hs
    simp [is_preceded_by_base, hs]

/-- Witness for C10: concrete instances of the rewrite rule (after a question
mark the dot stays; after a comma and after the keyword `else` the source
binding is inserted; a non-keyword identifier blocks insertion). -/
theorem C10_dot_prefix_rule_witness :
    (transformWithExprAux ("f") (some (.punct '?')) [.punct '.', .ident ("x")] =
      (if is_preceded_by_base (some (.punct '?')) then ([] : List TokenTree)
        else [TokenTree.ident ("src")]) ++
        TokenTree.punct '.' ::
          transformWithExprAux ("f") (some (.punct '.')) [.ident ("x")]) ∧
    is_preceded_by_base (some (.punct ',')) = false ∧
    is_preceded_by_base (some (.ident ("foo"))) = true ∧
    is_preceded_by_base (some (.ident ("else"))) = false :=
  ⟨C10_dot_prefix_rule.1 ("f") (some (.punct '?')) ("x") [],
   C10_dot_prefix_rule.2.2.2.1 ',' (by decide) (by decide) (by decide) (by decide),
   C10_dot_prefix_rule.2.2.2.2.2.1 ("foo") (by decide),
   C10_dot_prefix_rule.2.2.2.2.2.2.1.2⟩

/-- C1: the clone-policy resolver implements the six-rule first-match
decision procedure: with the effective clone mode being the field-level
override else the mapping-set default, `should_clone_field` returns true
exactly when the transform reads the source, the mode is not Copy, and
either the mode is Cloned, or the variant is reference-taking, or (Auto mode,
owned variant) the usage entry of the mapping's key exists with count above
one and it is not the case that the transform is Identity with the field
index equal to that key's last index. -/
theorem C1_should_clone_field_decision (m : FieldMapping) (i : Nat) (is_ref : Bool)
    (u : String → Option FieldUsage) (struct_mode : CloneMode) :
    should_clone_field m i is_ref u (m.source.clone_mode.getD struct_mode) = true ↔
      (m.source.reads_field = true ∧
       m.source.clone_mode.getD struct_mode ≠ CloneMode.copy ∧
       (m.source.clone_mode.getD struct_mode = CloneMode.cloned ∨
        is_ref = true ∨
        (m.source.clone_mode.getD struct_mode = CloneMode.auto ∧ is_ref = false ∧
         ∃ usage, u (m.source.get_usage_key m.target_field) = some usage ∧
           1 < usage.count ∧
           ¬(m.source.transform.is_identity = true ∧ i = usage.last_index)))) := by
  generalize m.source.clone_mode.getD struct_mode = eff
  unfold should_clone_field
  cases hr : m.source.reads_field with
  | false => simp [hr]
  | true =>
    cases eff <;> cases is_ref <;> simp [hr]
    · cases hu : u (m.source.get_usage_key m.target_field) with
      | none => simp
      | some usage =>
        by_cases hc : usage.count ≤ 1
        · simp [hc]
        · simp [hc]
          constructor
          · intro h
            refine ⟨by omega, fun hid hlast => ?_⟩
            simp [hid, hlast] at h
          · rintro ⟨h1, h2⟩
            cases hid : m.source.transform.is_identity with
            | false => simp
            | true =>
              simp
              intro hlast
              exact absurd hlast (h2 hid)


/-- Count of a key, seen through the optional usage entry. -/
def optCount : Option FieldUsage → Nat
  | none => 0
  | some u => u.count

theorem usageLookup_bump (acc : List (String × FieldUsage)) (key : String) (i : Nat)
    (k : String) :
    optCount (usageLookup (bumpUsage acc key i) k) =
      optCount (usageLookup acc k) + (if key = k then 1 else 0) := by
  unfold bumpUsage usageLookup
  by_cases hf : (acc.find? (fun p => p.1 = key)).isSome
  · rw [if_pos hf]
    rw [List.find?_map]
    have hcomp : ((fun p : String × FieldUsage => decide (p.1 = k)) ∘
        (fun p : String × FieldUsage =>
          if p.1 = key then (p.1, FieldUsage.mk (p.2.count + 1) i) else p)) =
        (fun p : String × FieldUsage => decide (p.1 = k)) := by
      funext p
      by_cases h : p.1 = key <;> simp [h]
    rw [hcomp]
    by_cases hkk : key = k
    · subst hkk
      rw [Option.isSome_iff_exists] at hf
      obtain ⟨a, ha⟩ := hf
      have hak : a.1 = key := by simpa using List.find?_some ha
      rw [ha]
      simp [optCount, hak]
    · rcases hfk : acc.find? (fun p => p.1 = k) with _ | a
      · simp [optCount, hkk, hfk]
      · have hak : a.1 = k := by simpa using List.find?_some hfk
        have hane : ¬ (a.1 = key) := fun h => hkk (by rw [← h, hak])
        simp [optCount, hak, hane, hkk, hfk, Ne.symm hkk]
  · rw [if_neg hf]
    rw [List.find?_append]
    by_cases hkk : key = k
    · subst hkk
      have hnone : acc.find? (fun p => p.1 = key) = none :=
        Option.not_isSome_iff_eq_none.mp hf
      rw [hnone]
      simp [optCount]
    · have hsing : List.find? (fun p : String × FieldUsage => p.1 = k)
          [(key, FieldUsage.mk 1 i)] = none := by
        simp [List.find?, hkk]
      rw [hsing]
      simp [optCount, hkk]

theorem countFieldUsageGo_count :
    ∀ (ms : List FieldMapping) (i : Nat) (acc : List (String × FieldUsage)) (k : String),
      optCount (usageLookup (countFieldUsageGo i ms acc) k) =
        optCount (usageLookup acc k) + usageOccurrences ms k := by
  intro ms
  induction ms with
  | nil => intro i acc k; simp [countFieldUsageGo, usageOccurrences]
  | cons m rest ih =>
    intro i acc k
    cases hr : m.source.reads_field with
    | true =>
      simp only [countFieldUsageGo, hr, if_true]
      rw [ih, usageLookup_bump]
      by_cases hk : m.source.get_usage_key m.target_field = k
      · simp [usageOccurrences, List.filter_cons, hr, hk]
        try omega
      · simp [usageOccurrences, List.filter_cons, hr, hk]
        try omega
    | false =>
      simp only [countFieldUsageGo, hr, Bool.false_eq_true, if_false]
      rw [ih]
      simp [usageOccurrences, List.filter_cons, hr]

/-- C2: if every usage key occurs in at most one source-reading mapping
(every declared source expression is read by exactly one target field) and
every effective clone mode is Auto, then `should_clone_field` returns false
for every field of the owned variant under the usage table computed by
`count_field_usage` - the owned-consuming procedure contains no
resolver-inserted duplication. -/
theorem C2_single_use_owned_no_clones (ms : List FieldMapping) (struct_mode : CloneMode)
    (huniq : ∀ k, usageOccurrences ms k ≤ 1)
    (hauto : ∀ m ∈ ms, m.source.clone_mode.getD struct_mode = CloneMode.auto) :
    ∀ (i : Nat) (h : i < ms.length),
      should_clone_field (ms.get ⟨i, h⟩) i false
        (usageLookup (count_field_usage ms))
        ((ms.get ⟨i, h⟩).source.clone_mode.getD struct_mode) = false := by
  intro i h
  have hmem : ms.get ⟨i, h⟩ ∈ ms := List.get_mem ms i h
  rw [hauto _ hmem]
  unfold should_clone_field
  cases hr : (ms.get ⟨i, h⟩).source.reads_field with
  | false => simp [hr]
  | true =>
    simp only [hr, Bool.not_true, Bool.false_eq_true, if_false]
    have hcount : optCount (usageLookup (count_field_usage ms)
        ((ms.get ⟨i, h⟩).source.get_usage_key (ms.get ⟨i, h⟩).target_field)) ≤ 1 := by
      rw [count_field_usage, countFieldUsageGo_count]
      simpa [usageLookup, optCount] using
        huniq ((ms.get ⟨i, h⟩).source.get_usage_key (ms.get ⟨i, h⟩).target_field)
    rcases hu : usageLookup (count_field_usage ms)
        ((ms.get ⟨i, h⟩).source.get_usage_key (ms.get ⟨i, h⟩).target_field) with _ | usage
    · simp [hu]
    · rw [hu] at hcount
      simp only [optCount] at hcount
      simp [hu, hcount]

/-- Witness for C2 on a one-field identity mapping set. -/
theorem C2_single_use_owned_no_clones_witness :
    should_clone_field (([⟨("a"), FieldSource.auto⟩] : List FieldMapping).get ⟨0, by simp⟩) 0 false
      (usageLookup (count_field_usage [⟨("a"), FieldSource.auto⟩]))
      ((([⟨("a"), FieldSource.auto⟩] : List FieldMapping).get ⟨0, by simp⟩).source.clone_mode.getD
        CloneMode.auto) = false :=
  C2_single_use_owned_no_clones [⟨("a"), FieldSource.auto⟩] CloneMode.auto
    (fun k => by
      unfold usageOccurrences
      exact le_trans (List.length_filter_le _ _) (by simp))
    (fun m hm => by
      rcases List.mem_singleton.mp hm with rfl
      rfl)
    0 (by simp)


/-- In the reference-taking variant, every source-reading mapping whose
effective clone mode is not Copy is marked for duplication. -/
theorem should_clone_ref (m : FieldMapping) (i : Nat)
    (u : String → Option FieldUsage) (eff : CloneMode)
    (hr : m.source.reads_field = true) (hc : eff ≠ CloneMode.copy) :
    should_clone_field m i true u eff = true := by
  unfold should_clone_field
  cases eff <;> simp_all

/-- Tokens of the with-expression `_.len()`. -/
def c3Tokens : List TokenTree :=
  [.ident "_", .punct '.', .ident ("len"), .group .paren []]

/-- C3 counterexample input: the mapping `n: with = _.len()` (a with-expression
containing a call). -/
def c3Mapping : FieldMapping :=
  ⟨("n"), { field_name := none,
            transform := .withExpr c3Tokens false,
            clone_mode := none }⟩

/-- C3 counterexample: `n: with = _.len()` reads the source and its effective
clone mode is Auto (not Copy), yet the initializer emitted for the
reference-taking variant contains no duplication call at all - refuting the
claim that every such initializer duplicates the accessed source data. -/
theorem C3_counterexample :
    c3Mapping.source.reads_field = true ∧
    c3Mapping.source.clone_mode.getD CloneMode.auto ≠ CloneMode.copy ∧
    containsIdent ("clone")
      (generate_field_init c3Mapping 0 true
        (usageLookup (count_field_usage [c3Mapping])) CloneMode.auto) = false := by
  refine ⟨rfl, by decide, ?_⟩
  simp [generate_field_init, c3Mapping, c3Tokens, should_clone_field, FieldSource.reads_field,
    Transform.is_default_kind, tokens_contain_call, transform_with_expr_tokens,
    transformWithExprAux, is_preceded_by_base, is_keyword, isDotTok, containsIdent,
    FieldSource.get_field_name]

/-- C3 amended: in the reference-taking variant `should_clone_field` marks
every source-reading, non-Copy mapping for duplication, and the emitted
initializer contains an inserted clone for Identity transforms and for
with-expressions without calls; but with-expressions containing a call, and
collection maps outside Cloned mode, are emitted without any inserted
duplication (they are assumed to produce owned values). -/
theorem C3_ref_variant_duplication (m : FieldMapping) (i : Nat)
    (u : String → Option FieldUsage) (struct_mode : CloneMode)
    (tokens : List TokenTree) (fallible : Bool) :
    (m.source.reads_field = true →
      m.source.clone_mode.getD struct_mode ≠ CloneMode.copy →
      should_clone_field m i true u (m.source.clone_mode.getD struct_mode) = true) ∧
    (m.source.transform = Transform.identity →
      m.source.clone_mode.getD struct_mode ≠ CloneMode.copy →
      generate_field_init m i true u struct_mode =
        [.ident m.target_field, .punct ':',
         .ident ("src"), .punct '.', .ident (m.source.get_field_name m.target_field),
         .punct '.', .ident ("clone"), .group .paren []]) ∧
    (m.source.transform = Transform.withExpr tokens fallible →
      tokens_contain_call tokens = false →
      m.source.clone_mode.getD struct_mode ≠ CloneMode.copy →
      generate_field_init m i true u struct_mode =
        [.ident m.target_field, .punct ':',
         .group .paren (transform_with_expr_tokens tokens
           (m.source.get_field_name m.target_field)),
         .punct '.', .ident ("clone"), .group .paren []] ++
          (if fallible then [TokenTree.punct '?'] else [])) ∧
    (m.source.transform = Transform.withExpr tokens fallible →
      tokens_contain_call tokens = true →
      generate_field_init m i true u struct_mode =
        [.ident m.target_field, .punct ':'] ++
          transform_with_expr_tokens tokens (m.source.get_field_name m.target_field) ++
          (if fallible then [TokenTree.punct '?'] else [])) ∧
    (m.source.transform = Transform.collectionMap tokens →
      m.source.clone_mode.getD struct_mode ≠ CloneMode.cloned →
      generate_field_init m i true u struct_mode =
        [.ident m.target_field, .punct ':',
         .ident ("src"), .punct '.', .ident (m.source.get_field_name m.target_field),
         .punct '.', .ident ("iter"), .group .paren [],
         .punct '.', .ident ("map"),
         .group .paren ([.punct '|', .ident ("__item"), .punct '|'] ++
           replace_placeholder tokens ("__item")),
         .punct '.', .ident ("collect"), .group .paren []]) := by
  refine ⟨should_clone_ref m i u _, ?_, ?_, ?_, ?_⟩
  · intro htr hc
    have hr : m.source.reads_field = true := by
      unfold FieldSource.reads_field
      rw [htr]; rfl
    have hs := should_clone_ref m i u _ hr hc
    unfold generate_field_init
    rw [htr]
    simp [hs, field_access]
  · intro htr hcall hc
    have hr : m.source.reads_field = true := by
      unfold FieldSource.reads_field
      rw [htr]; rfl
    have hs := should_clone_ref m i u _ hr hc
    unfold generate_field_init
    rw [htr]
    simp [hs, hcall]
    cases fallible <;> simp
  · intro htr hcall
    unfold generate_field_init
    rw [htr]
    simp [hcall]
    cases fallible <;> simp
  · intro htr hc
    unfold generate_field_init
    rw [htr]
    simp [hc]

/-- Witness for C3 (amended) at the `_.len()` mapping: the clone flag is set
for the reference variant, and the emitted initializer is the transformed
expression without an inserted clone. -/
theorem C3_ref_variant_duplication_witness :
    should_clone_field c3Mapping 0 true (fun _ => none)
      (c3Mapping.source.clone_mode.getD CloneMode.auto) = true ∧
    generate_field_init c3Mapping 0 true (fun _ => none) CloneMode.auto =
      [.ident c3Mapping.target_field, .punct ':'] ++
        transform_with_expr_tokens c3Tokens
          (c3Mapping.source.get_field_name c3Mapping.target_field) ++
        (if false then [TokenTree.punct '?'] else []) :=
  have h := C3_ref_variant_duplication c3Mapping 0 (fun _ => none) CloneMode.auto c3Tokens false
  ⟨h.1 rfl (by decide), h.2.2.2.1 rfl (by simp [c3Tokens, tokens_contain_call])⟩


/-- Every `WithExpr` field of a mapping list has the per-field binding
`__with_<target>` in the `WithExprBindings` map. -/
theorem with_expr_binding_mem (fields : List FieldMapping) (f : FieldMapping)
    (hf : f ∈ fields) (hw : f.source.transform.is_with_expr = true) :
    with_expr_binding fields f.target_field = some ("__with_" ++ f.target_field) := by
  unfold with_expr_binding
  rw [if_pos]
  exact List.any_eq_true.mpr ⟨f, hf, by simp [hw]⟩

/-- A `WithExpr` field always produces a let binding named after itself. -/
theorem withExprLetEntry_name (fields : List FieldMapping) (is_ref : Bool)
    (u : String → Option FieldUsage) (f : FieldMapping)
    (hf : f ∈ fields) (hw : f.source.transform.is_with_expr = true) :
    ∃ value, withExprLetEntry fields is_ref u f =
      some ("__with_" ++ f.target_field, value) := by
  unfold withExprLetEntry
  rcases htr : f.source.transform with _ | ⟨tokens, fallible⟩ | ts | _ | e
  · rw [htr] at hw; simp [Transform.is_with_expr] at hw
  · rw [with_expr_binding_mem fields f hf hw]
    exact ⟨_, rfl⟩
  · rw [htr] at hw; simp [Transform.is_with_expr] at hw
  · rw [htr] at hw; simp [Transform.is_with_expr] at hw
  · rw [htr] at hw; simp [Transform.is_with_expr] at hw

/-- Non-`WithExpr` fields produce no with-expression binding. -/
theorem withExprLetEntry_none (fields : List FieldMapping) (is_ref : Bool)
    (u : String → Option FieldUsage) (f : FieldMapping)
    (hw : f.source.transform.is_with_expr = false) :
    withExprLetEntry fields is_ref u f = none := by
  unfold withExprLetEntry
  rcases htr : f.source.transform with _ | ⟨tokens, fallible⟩ | ts | _ | e <;>
    first
      | rfl
      | (rw [htr] at hw; simp [Transform.is_with_expr] at hw)

/-- The names of the emitted with-expression bindings: one `__with_<target>`
per `WithExpr` field, in declaration order (no deduplication by text). -/
theorem withExprLets_names (fields : List FieldMapping) (is_ref : Bool)
    (u : String → Option FieldUsage) :
    (withExprLets fields is_ref u).map Prod.fst =
      (fields.filter (fun f => f.source.transform.is_with_expr)).map
        (fun f => "__with_" ++ f.target_field) := by
  unfold withExprLets
  suffices h : ∀ l : List FieldMapping, (∀ f ∈ l, f ∈ fields) →
      (l.filterMap (withExprLetEntry fields is_ref u)).map Prod.fst =
        (l.filter (fun f => f.source.transform.is_with_expr)).map
          (fun f => "__with_" ++ f.target_field) by
    exact h fields (fun _ hf => hf)
  intro l
  induction l with
  | nil => intro _; simp
  | cons f rest ih =>
    intro hsub
    rw [List.filterMap_cons, List.filter_cons]
    cases hw : f.source.transform.is_with_expr with
    | false =>
      rw [withExprLetEntry_none fields is_ref u f hw]
      simp only [Bool.false_eq_true, if_false]
      exact ih (fun g hg => hsub g (List.mem_cons_of_mem f hg))
    | true =>
      obtain ⟨value, hv⟩ :=
        withExprLetEntry_name fields is_ref u f (hsub f (List.mem_cons_self f rest)) hw
      rw [hv]
      simp only [if_true]
      simp [ih (fun g hg => hsub g (List.mem_cons_of_mem f hg))]

/-- Every impl emitted by the `relate_structs!` generator carries no hoisted
bindings: its body is a bare record construction. -/
theorem relate_impls_no_lets (r : ExistingRelation) (impls : List GenImpl)
    (hok : generate_existing_relation r = .ok impls) :
    ∀ g ∈ impls, g.lets = [] := by
  unfold generate_existing_relation at hok
  rcases hbody : r.body with _ | body
  · rw [hbody] at hok; exact absurd hok (by simp)
  · rw [hbody] at hok
    dsimp only at hok
    by_cases hsp : body.has_spread && body.fields.isEmpty
    · rw [if_pos hsp] at hok; exact absurd hok (by simp)
    · rw [if_neg hsp] at hok
      simp only [Except.ok.injEq] at hok
      subst hok
      intro g hg
      rcases List.mem_append.mp hg with h | h
      · rcases heff : effective_direction r.direction body.fields with _ | _ | e <;>
          rw [heff] at h <;>
          simp [generate_from_impl_pair, generate_try_from_impl_pair] at h <;>
          rcases h with h | h <;> simp [h]
      · by_cases hbi : r.direction = Direction.bidirectional
        · rw [if_pos hbi] at h
          simp [generate_from_impl_pair] at h
          rcases h with h | h <;> simp [h]
        · rw [if_neg hbi] at h
          simp at h


/-- Fields of the C4/C6 relate counterexamples: a single field `a: with = .x`. -/
def rel4fields : List FieldMapping :=
  [⟨("a"), { field_name := none,
             transform := .withExpr [.punct '.', .ident ("x")] false,
             clone_mode := none }⟩]

/-- The relation `S ~> T (brace) a: with = .x; (brace)`. -/
def rel4 : ExistingRelation :=
  { source_name := ("S"), target_name := ("T"), direction := .forward,
    body := some { has_spread := false, fields := rel4fields } }

/-- The impls the `relate_structs!` generator emits for `rel4`: no bindings,
the with-expression inline in the construction (cloned in the ref impl). -/
def rel4Impls : List GenImpl :=
  [{ is_try := false, by_ref := false, src_type := ("S"), tgt_type := ("T"),
     error_type := none, lets := [],
     fields := [[.ident ("a"), .punct ':',
                 .ident ("src"), .punct '.', .ident ("x")]] },
   { is_try := false, by_ref := true, src_type := ("S"), tgt_type := ("T"),
     error_type := none, lets := [],
     fields := [[.ident ("a"), .punct ':',
                 .group .paren [.ident ("src"), .punct '.', .ident ("x")],
                 .punct '.', .ident ("clone"), .group .paren []]] }]

/-- Evaluation of the generator on `rel4`. -/
theorem rel4_ok : generate_existing_relation rel4 = .ok rel4Impls := by
  simp [generate_existing_relation, rel4, rel4fields, rel4Impls, count_field_usage,
    countFieldUsageGo, bumpUsage, usageLookup, generate_field_init, should_clone_field,
    FieldSource.reads_field, Transform.is_default_kind, FieldSource.get_usage_key,
    FieldSource.get_field_name, replace_underscore_in_tokens, replaceUnderscoreAux,
    tsToString, ttToString, stripSpaces, trimLeadingDots, transform_with_expr_tokens,
    transformWithExprAux, is_preceded_by_base, is_keyword, isDotTok, tokens_contain_call,
    effective_direction, has_fallible_fields, Transform.is_fallible,
    generate_from_impl_pair, List.enum, List.enumFrom, Transform.is_identity]

/-- C4 counterexample: for `S ~> T (brace) a: with = .x; (brace)` both generated
procedures carry zero hoisted temporaries and the record construction contains
the with-expression inline - the claim that in every generated conversion
procedure each with-expression field is hoisted into a named temporary fails
on the `relate_structs!` path. -/
theorem C4_counterexample :
    generate_existing_relation rel4 = .ok rel4Impls ∧
    (rel4Impls.map (fun g => g.lets)) = [[], []] ∧
    (rel4Impls.map (fun g => g.fields)) =
      [[[.ident ("a"), .punct ':', .ident ("src"), .punct '.', .ident ("x")]],
       [[.ident ("a"), .punct ':',
         .group .paren [.ident ("src"), .punct '.', .ident ("x")],
         .punct '.', .ident ("clone"), .group .paren []]]] :=
  ⟨rel4_ok, rfl, rfl⟩

/-- C4 amended: hoisting of with-expressions happens only in the derive
generator: there every `WithExpr` field receives its own named temporary
`__with_<field>` keyed by target-field name (one per field, in declaration
order, with no deduplication by expression text), all with-expression
temporaries precede all default-expression temporaries, and each `WithExpr`
field initializer reads exactly its own temporary; the `relate_structs!`
generator hoists nothing and renders with-expressions inline in the record
construction. -/
theorem C4_with_expr_hoisting (fields : List FieldMapping) (is_ref : Bool)
    (u : String → Option FieldUsage) (clone_mode : CloneMode) (idx : Nat)
    (r : ExistingRelation) (impls : List GenImpl) :
    (field_generator_let_bindings fields is_ref u =
        withExprLets fields is_ref u ++ defaultLets fields) ∧
    ((withExprLets fields is_ref u).map Prod.fst =
        (fields.filter (fun f => f.source.transform.is_with_expr)).map
          (fun f => "__with_" ++ f.target_field)) ∧
    (∀ f ∈ fields, f.source.transform.is_with_expr = true →
      field_generator_field_init fields clone_mode u f idx is_ref =
        [.ident f.target_field, .punct ':', .ident ("__with_" ++ f.target_field)]) ∧
    (generate_existing_relation r = .ok impls → ∀ g ∈ impls, g.lets = []) := by
  refine ⟨rfl, withExprLets_names fields is_ref u, ?_,
    fun hok => relate_impls_no_lets r impls hok⟩
  intro f hf hw
  unfold field_generator_field_init
  dsimp only
  rw [with_expr_binding_mem fields f hf hw]

/-- Two-field mapping set where both fields carry the identical
with-expression `.x`. -/
def c4wFields : List FieldMapping :=
  [⟨("a"), { field_name := none,
             transform := .withExpr [.punct '.', .ident ("x")] false,
             clone_mode := none }⟩,
   ⟨("b"), { field_name := none,
             transform := .withExpr [.punct '.', .ident ("x")] false,
             clone_mode := none }⟩]

/-- Witness for C4 (amended): on two fields sharing one expression text the
derive generator still emits one temporary per field (`__with_a`, `__with_b`),
each field reads its own temporary, and the relate generator output of `rel4`
has no bindings. -/
theorem C4_with_expr_hoisting_witness :
    (field_generator_let_bindings c4wFields false (fun _ => none) =
        withExprLets c4wFields false (fun _ => none) ++ defaultLets c4wFields) ∧
    ((withExprLets c4wFields false (fun _ => none)).map Prod.fst =
        (c4wFields.filter (fun f => f.source.transform.is_with_expr)).map
          (fun f => "__with_" ++ f.target_field)) ∧
    (field_generator_field_init c4wFields CloneMode.auto (fun _ => none)
        ⟨("a"), { field_name := none,
                  transform := .withExpr [.punct '.', .ident ("x")] false,
                  clone_mode := none }⟩ 0 false =
      [.ident ("a"), .punct ':', .ident ("__with_" ++ "a")]) ∧
    (∀ g ∈ rel4Impls, g.lets = []) :=
  have h := C4_with_expr_hoisting c4wFields false (fun _ => none) CloneMode.auto 0
    rel4 rel4Impls
  ⟨h.1, h.2.1,
   h.2.2.1 _ (by simp [c4wFields]) rfl,
   h.2.2.2 rel4_ok⟩


/-- Is a direction a fallible (`TryFrom`) request? -/
def Direction.isTry : Direction → Bool
  | .tryForward _ => true
  | _ => false

/-- The error type a fallible forward pair resolves to for a requested
direction: the caller-specified type if the request carries one, else the
default conversion-error type. -/
def direction_error : Direction → String
  | .tryForward (some e) => e
  | _ => "::relate::ConversionError"

/-- The effective direction is fallible iff the fields contain a fallible
transform or the request itself was fallible. -/
theorem effective_direction_isTry (d : Direction) (fields : List FieldMapping) :
    (effective_direction d fields).isTry = (has_fallible_fields fields || d.isTry) := by
  cases hf : has_fallible_fields fields <;> cases d <;>
    simp [effective_direction, hf, Direction.isTry]

/-- The custom error carried by the effective direction resolves to
`direction_error` of the requested direction. -/
theorem effective_error_eq (d : Direction) (fields : List FieldMapping)
    (custom : Option String)
    (heff : effective_direction d fields = .tryForward custom) :
    custom.getD ("::relate::ConversionError") = direction_error d := by
  cases hf : has_fallible_fields fields <;> cases d <;>
    simp [effective_direction, hf] at heff <;>
    first
      | (subst heff; rfl)
      | (cases custom <;> simp_all [direction_error])


/-- The effective direction is `Forward` only for a `Forward` request. -/
theorem effective_direction_forward (d : Direction) (fields : List FieldMapping)
    (h : effective_direction d fields = .forward) : d = .forward := by
  cases hf : has_fallible_fields fields <;> cases d <;>
    simp_all [effective_direction]

/-- The effective direction is `Bidirectional` only for a `Bidirectional`
request. -/
theorem effective_direction_bidirectional (d : Direction) (fields : List FieldMapping)
    (h : effective_direction d fields = .bidirectional) : d = .bidirectional := by
  cases hf : has_fallible_fields fields <;> cases d <;>
    simp_all [effective_direction]

/-- Shape of the `relate_structs!` output: a forward pair followed by the
backward pair exactly when bidirectional; fallibility and the error type are
uniform across each pair. -/
theorem relate_output_pairs (r : ExistingRelation) (body : RelationBody)
    (impls : List GenImpl) (hbody : r.body = some body)
    (hok : generate_existing_relation r = .ok impls) :
    ∃ fwdOwned fwdRef bwd, impls = fwdOwned :: fwdRef :: bwd ∧
      fwdOwned.is_try = fwdRef.is_try ∧
      fwdOwned.is_try = (has_fallible_fields body.fields || r.direction.isTry) ∧
      fwdOwned.error_type = fwdRef.error_type ∧
      fwdOwned.error_type =
        (if fwdOwned.is_try then some (direction_error r.direction) else none) ∧
      (∀ g ∈ bwd, g.is_try = false ∧ g.error_type = none) ∧
      (bwd ≠ [] ↔ r.direction = Direction.bidirectional) := by
  unfold generate_existing_relation at hok
  rw [hbody] at hok
  dsimp only at hok
  by_cases hsp : body.has_spread && body.fields.isEmpty
  · rw [if_pos hsp] at hok; exact absurd hok (by simp)
  rw [if_neg hsp] at hok
  simp only [Except.ok.injEq] at hok
  have htry := effective_direction_isTry r.direction body.fields
  rcases heff : effective_direction r.direction body.fields with _ | _ | custom <;>
    rw [heff] at hok htry <;>
    simp only [generate_from_impl_pair, generate_try_from_impl_pair,
      List.cons_append, List.nil_append] at hok
  · -- effective Forward: request was Forward, no backward impls
    have hd := effective_direction_forward _ _ heff
    rw [hd] at hok
    rw [if_neg (by simp)] at hok
    refine ⟨_, _, [], hok.symm, rfl, htry, rfl, by simp, by simp, by simp [hd]⟩
  · -- effective Bidirectional: request was Bidirectional, backward From pair
    have hd := effective_direction_bidirectional _ _ heff
    rw [hd] at hok
    rw [if_pos rfl] at hok
    refine ⟨_, _, _, hok.symm, rfl, htry, rfl, by simp, ?_, by simp [hd]⟩
    intro g hg
    simp only [List.mem_cons, List.not_mem_nil, or_false] at hg
    rcases hg with h | h <;> simp [h]
  · -- effective TryForward
    have herr := effective_error_eq r.direction body.fields custom heff
    by_cases hd : r.direction = Direction.bidirectional
    · rw [if_pos hd] at hok
      refine ⟨_, _, _, hok.symm, rfl, htry, rfl, by simp [herr], ?_, by simp [hd]⟩
      intro g hg
      simp only [List.mem_cons, List.not_mem_nil, or_false] at hg
      rcases hg with h | h <;> simp [h]
    · rw [if_neg hd] at hok
      refine ⟨_, _, [], hok.symm, rfl, htry, rfl, by simp [herr], by simp, by simp [hd]⟩


/-- Fields of the C5 counterexample: one identity mapping with no fallible
transform. -/
def relTfields : List FieldMapping := [⟨("name"), FieldSource.auto⟩]

/-- The relation `A ~>? B (brace) name; (brace)`: an explicitly fallible request
over infallible fields. -/
def relT : ExistingRelation :=
  { source_name := ("A"), target_name := ("B"), direction := .tryForward none,
    body := some { has_spread := false, fields := relTfields } }

/-- The impls the generator emits for `relT`: a TryFrom pair with the default
error type, despite no field transform being fallible. -/
def relTImpls : List GenImpl :=
  [{ is_try := true, by_ref := false, src_type := ("A"), tgt_type := ("B"),
     error_type := some ("::relate::ConversionError"), lets := [],
     fields := [[.ident ("name"), .punct ':',
                 .ident ("src"), .punct '.', .ident ("name")]] },
   { is_try := true, by_ref := true, src_type := ("A"), tgt_type := ("B"),
     error_type := some ("::relate::ConversionError"), lets := [],
     fields := [[.ident ("name"), .punct ':',
                 .ident ("src"), .punct '.', .ident ("name"),
                 .punct '.', .ident ("clone"), .group .paren []]] }]

/-- Evaluation of the generator on `relT`. -/
theorem relT_ok : generate_existing_relation relT = .ok relTImpls := by
  simp [generate_existing_relation, relT, relTfields, relTImpls, count_field_usage,
    countFieldUsageGo, bumpUsage, usageLookup, generate_field_init, should_clone_field,
    FieldSource.reads_field, Transform.is_default_kind, FieldSource.get_usage_key,
    FieldSource.get_field_name, FieldSource.auto, field_access,
    effective_direction, has_fallible_fields, Transform.is_fallible,
    generate_try_from_impl_pair, List.enum, List.enumFrom, Transform.is_identity]

/-- C5 counterexample: for the explicitly fallible request `A ~>? B` over a
mapping set with no fallible field transform, both generated procedures still
return a result (TryFrom with the default error type) - refuting the
claim that whenever no field transform is fallible both procedures of the
direction return the record directly. -/
theorem C5_counterexample :
    has_fallible_fields relTfields = false ∧
    generate_existing_relation relT = .ok relTImpls ∧
    relTImpls.map (fun g => g.is_try) = [true, true] :=
  ⟨rfl, relT_ok, rfl⟩

/-- C5 amended: each direction is uniformly fallible or uniformly infallible:
the forward pair is fallible exactly when some field transform is fallible or
the request itself is fallible (the `~>?` operator, or for the derive an
explicit error type or try_from marker), with the caller-specified error type
when given and the default conversion-error type otherwise; the backward pair
of a bidirectional request is always infallible. -/
theorem C5_structural_fallibility :
    (∀ (d : Direction) (fields : List FieldMapping),
        (effective_direction d fields).isTry = (has_fallible_fields fields || d.isTry)) ∧
    (∀ (r : ExistingRelation) (body : RelationBody) (impls : List GenImpl),
        r.body = some body → generate_existing_relation r = .ok impls →
        ∃ fwdOwned fwdRef bwd, impls = fwdOwned :: fwdRef :: bwd ∧
          fwdOwned.is_try = fwdRef.is_try ∧
          fwdOwned.is_try = (has_fallible_fields body.fields || r.direction.isTry) ∧
          fwdOwned.error_type = fwdRef.error_type ∧
          fwdOwned.error_type =
            (if fwdOwned.is_try then some (direction_error r.direction) else none) ∧
          (∀ g ∈ bwd, g.is_try = false ∧ g.error_type = none) ∧
          (bwd ≠ [] ↔ r.direction = Direction.bidirectional)) ∧
    (∀ (fields : List FieldMapping) (explicit_error : Option String) (force : Bool),
        determine_conversion_mode fields explicit_error force = .infallible ↔
          (explicit_error = none ∧ force = false ∧ has_fallible_fields fields = false)) ∧
    (∀ (input : FromDeriveInput) (e : Option String),
        input.conversion_mode = .fallible e →
        (generate_from_derive input).map (fun g => (g.is_try, g.error_type)) =
          [(true, some (e.getD ("::relate::ConversionError"))),
           (true, some (e.getD ("::relate::ConversionError")))]) ∧
    (∀ (input : FromDeriveInput),
        input.conversion_mode = .infallible →
        ∀ g ∈ generate_from_derive input, g.is_try = false ∧ g.error_type = none) := by
  refine ⟨effective_direction_isTry,
    fun r body impls hbody hok => relate_output_pairs r body impls hbody hok,
    ?_, ?_, ?_⟩
  · intro fields explicit_error force
    cases explicit_error <;> cases force <;>
      cases hf : fields.any (fun f => f.source.transform.is_fallible) <;>
      simp [determine_conversion_mode, has_fallible_fields, hf]
  · intro input e hmode
    unfold generate_from_derive
    rw [hmode]
    unfold generate_try_from_impl
    simp
  · intro input hmode g hg
    unfold generate_from_derive at hg
    rw [hmode] at hg
    unfold generate_from_impl at hg
    dsimp only at hg
    rcases List.mem_append.mp hg with h | h
    · simp only [List.mem_cons, List.not_mem_nil, or_false] at h
      rcases h with h | h <;> simp [h]
    · by_cases hbi : input.bidirectional
      · rw [if_pos hbi] at h
        simp only [List.mem_cons, List.not_mem_nil, or_false] at h
        rcases h with h | h <;> simp [h]
      · rw [if_neg hbi] at h
        simp at h

/-- Witness for C5 (amended) combining the relate pair shape on `relT` and
the derive conversion-mode characterization at concrete inputs. -/
theorem C5_structural_fallibility_witness :
    ((effective_direction (Direction.tryForward none) relTfields).isTry =
      (has_fallible_fields relTfields || (Direction.tryForward none).isTry)) ∧
    (∃ fwdOwned fwdRef bwd, relTImpls = fwdOwned :: fwdRef :: bwd ∧
      fwdOwned.is_try = fwdRef.is_try ∧
      fwdOwned.is_try = (has_fallible_fields relTfields || relT.direction.isTry) ∧
      fwdOwned.error_type = fwdRef.error_type ∧
      fwdOwned.error_type =
        (if fwdOwned.is_try then some (direction_error relT.direction) else none) ∧
      (∀ g ∈ bwd, g.is_try = false ∧ g.error_type = none) ∧
      (bwd ≠ [] ↔ relT.direction = Direction.bidirectional)) ∧
    (determine_conversion_mode relTfields none false = .infallible ↔
      (none = (none : Option String) ∧ false = false ∧
        has_fallible_fields relTfields = false)) :=
  have h := C5_structural_fallibility
  have hok : generate_existing_relation relT = .ok relTImpls := relT_ok
  ⟨h.1 (Direction.tryForward none) relTfields,
   h.2.1 relT { has_spread := false, fields := relTfields } relTImpls rfl hok,
   h.2.2.1 relTfields none false⟩


/-- Fields of the C6 counterexample: an identity mapping plus the
non-invertible mapping `doubled: with = .value * 2`. -/
def relWfields : List FieldMapping :=
  [⟨("name"), FieldSource.auto⟩,
   ⟨("doubled"), { field_name := none,
                   transform := .withExpr
                     [.punct '.', .ident ("value"), .punct '*', .lit ("2")] false,
                   clone_mode := none }⟩]

/-- The bidirectional relation `Source ~ Target` over `relWfields`. -/
def relW : ExistingRelation :=
  { source_name := ("Source"), target_name := ("Target"),
    direction := .bidirectional,
    body := some { has_spread := false, fields := relWfields } }

/-- The impls emitted for `relW`: all four conversion impls are produced, and
the backward pair simply omits the non-identity field. -/
def relWImpls : List GenImpl :=
  [{ is_try := false, by_ref := false, src_type := ("Source"), tgt_type := ("Target"),
     error_type := none, lets := [],
     fields := [[.ident ("name"), .punct ':',
                 .ident ("src"), .punct '.', .ident ("name")],
                [.ident ("doubled"), .punct ':',
                 .ident ("src"), .punct '.', .ident ("value"), .punct '*', .lit ("2")]] },
   { is_try := false, by_ref := true, src_type := ("Source"), tgt_type := ("Target"),
     error_type := none, lets := [],
     fields := [[.ident ("name"), .punct ':',
                 .ident ("src"), .punct '.', .ident ("name"),
                 .punct '.', .ident ("clone"), .group .paren []],
                [.ident ("doubled"), .punct ':',
                 .group .paren [.ident ("src"), .punct '.', .ident ("value"),
                                .punct '*', .lit ("2")],
                 .punct '.', .ident ("clone"), .group .paren []]] },
   { is_try := false, by_ref := false, src_type := ("Target"), tgt_type := ("Source"),
     error_type := none, lets := [],
     fields := [[.ident ("name"), .punct ':',
                 .ident ("src"), .punct '.', .ident ("name")]] },
   { is_try := false, by_ref := true, src_type := ("Target"), tgt_type := ("Source"),
     error_type := none, lets := [],
     fields := [[.ident ("name"), .punct ':',
                 .ident ("src"), .punct '.', .ident ("name"),
                 .punct '.', .ident ("clone"), .group .paren []]] }]

/-- Evaluation of the generator on `relW`. -/
theorem relW_ok : generate_existing_relation relW = .ok relWImpls := by
  simp [generate_existing_relation, relW, relWfields, relWImpls, count_field_usage,
    countFieldUsageGo, bumpUsage, usageLookup, generate_field_init, should_clone_field,
    FieldSource.reads_field, Transform.is_default_kind, FieldSource.get_usage_key,
    FieldSource.get_field_name, FieldSource.auto, field_access,
    replace_underscore_in_tokens, replaceUnderscoreAux, tsToString, ttToString,
    stripSpaces, trimLeadingDots, transform_with_expr_tokens, transformWithExprAux,
    is_preceded_by_base, is_keyword, isDotTok, tokens_contain_call,
    effective_direction, has_fallible_fields, Transform.is_fallible,
    generate_from_impl_pair, List.enum, List.enumFrom, Transform.is_identity,
    count_reverse_field_usage, generate_reverse_field_init, ReverseStrategy.identityOnly]

/-- C6 counterexample: the bidirectional request containing the non-identity
mapping `doubled: with = .value * 2` is not rejected: the generator returns
all four impls, and the backward constructions silently omit the `doubled`
field (one initializer instead of two) rather than raising a diagnostic
before emission. -/
theorem C6_counterexample :
    generate_existing_relation relW = .ok relWImpls ∧
    relWImpls.map (fun g => (g.src_type, g.fields.length)) =
      [(("Source"), 2), (("Source"), 2), (("Target"), 1), (("Target"), 1)] :=
  ⟨relW_ok, rfl⟩

/-- C6 amended: under the IdentityOnly reverse strategy a non-identity,
non-default mapping receives no reverse initializer (it is silently omitted
from the emitted reverse construction; the generator itself emits code and
reports no diagnostic, the omission only surfacing as a missing-field error
when the emitted code is compiled); under AllNonDefault the same mapping is
accepted and its reverse initializer assigns the original source field name
from the target record field of the mapping target-field name, cloning when
in the reference variant or when that target-field name is used more than
once in reverse counting. -/
theorem C6_reverse_strategy (m : FieldMapping) (is_ref : Bool) (u : String → Nat)
    (r : ExistingRelation) (body : RelationBody) :
    (m.source.transform.is_default_kind = false →
      m.source.transform.is_identity = false →
      generate_reverse_field_init m is_ref u .identityOnly = none) ∧
    (m.source.transform.is_default_kind = false →
      generate_reverse_field_init m is_ref u .allNonDefault =
        some ([.ident (m.source.get_field_name m.target_field), .punct ':'] ++
          (if is_ref || 1 < u m.target_field then
            [.ident ("src"), .punct '.', .ident m.target_field,
             .punct '.', .ident ("clone"), .group .paren []]
          else
            [.ident ("src"), .punct '.', .ident m.target_field]))) ∧
    (r.body = some body → ¬(body.has_spread = true ∧ body.fields = []) →
      ∃ impls, generate_existing_relation r = .ok impls) := by
  refine ⟨?_, ?_, ?_⟩
  · intro hdef hid
    unfold generate_reverse_field_init
    simp [hdef, hid]
  · intro hdef
    unfold generate_reverse_field_init
    simp only [hdef, Bool.false_eq_true, if_false]
    have hstrat : (ReverseStrategy.allNonDefault = ReverseStrategy.identityOnly &&
        !m.source.transform.is_identity) = false := by simp
    rw [hstrat]
    simp only [Bool.false_eq_true, if_false]
  · intro hbody hsp
    unfold generate_existing_relation
    rw [hbody]
    dsimp only
    rw [if_neg ?hc]
    case hc =>
      intro hc
      simp only [Bool.and_eq_true] at hc
      exact hsp ⟨hc.1, List.isEmpty_iff.mp hc.2⟩
    exact ⟨_, rfl⟩


/-- The non-invertible mapping of the C6 scenario. -/
def m6 : FieldMapping :=
  ⟨("doubled"), { field_name := none,
                  transform := .withExpr
                    [.punct '.', .ident ("value"), .punct '*', .lit ("2")] false,
                  clone_mode := none }⟩

/-- Witness for C6 (amended) at the `doubled` mapping and the `relW`
relation. -/
theorem C6_reverse_strategy_witness :
    (generate_reverse_field_init m6 false (fun _ => 1) .identityOnly = none) ∧
    (generate_reverse_field_init m6 false (fun _ => 1) .allNonDefault =
      some ([.ident (m6.source.get_field_name m6.target_field), .punct ':'] ++
        (if false || 1 < (fun _ => 1 : String → Nat) m6.target_field then
          [.ident ("src"), .punct '.', .ident m6.target_field,
           .punct '.', .ident ("clone"), .group .paren []]
        else
          [.ident ("src"), .punct '.', .ident m6.target_field]))) ∧
    (∃ impls, generate_existing_relation relW = .ok impls) :=
  have h := C6_reverse_strategy m6 false (fun _ => 1) relW
    { has_spread := false, fields := relWfields }
  ⟨h.1 rfl rfl, h.2.1 rfl, h.2.2 rfl (by simp [relWfields])⟩


theorem mem_firstOccurrences (k : String) :
    ∀ l : List String, k ∈ firstOccurrences l ↔ k ∈ l := by
  intro l
  induction l using firstOccurrences.induct with
  | case1 => simp [firstOccurrences]
  | case2 kh rest ih =>
    rw [firstOccurrences]
    by_cases hk : k = kh
    · simp [hk]
    · simp only [List.mem_cons, ih, List.mem_filter]
      constructor
      · rintro (h | ⟨h, _⟩)
        · exact Or.inl h
        · exact Or.inr h
      · rintro (h | h)
        · exact Or.inl h
        · exact Or.inr ⟨h, by simp [hk]⟩

theorem mem_defaultBindingKeys (fields : List FieldMapping) (k : String) :
    k ∈ defaultBindingKeys fields ↔
      (k ∈ hoistableDefaultTexts fields ∧
        1 < (hoistableDefaultTexts fields).count k) := by
  unfold defaultBindingKeys
  rw [List.mem_filter, mem_firstOccurrences]
  simp

theorem defaultBindingsGo_find_mem (fields : List FieldMapping) (k : String) :
    ∀ (keys : List String) (idx : Nat), k ∈ keys →
      ∃ name, (defaultBindingsGo fields idx keys).find? (fun p => p.1 = k) =
        some (k, name, (hoistableDefaultTexts fields).count k) := by
  intro keys
  induction keys with
  | nil => intro idx h; simp at h
  | cons kh rest ih =>
    intro idx hmem
    rw [defaultBindingsGo]
    by_cases hk : kh = k
    · subst hk
      exact ⟨"__default_" ++ toString idx, by rw [List.find?_cons_of_pos _ (by simp)]⟩
    · rw [List.find?_cons_of_neg _ (by simp [hk])]
      refine ih (idx + 1) ?_
      rcases List.mem_cons.mp hmem with h | h
      · exact absurd h.symm hk
      · exact h

theorem defaultBindingsGo_find_none (fields : List FieldMapping) (k : String) :
    ∀ (keys : List String) (idx : Nat), k ∉ keys →
      (defaultBindingsGo fields idx keys).find? (fun p => p.1 = k) = none := by
  intro keys
  induction keys with
  | nil => intro idx _; rfl
  | cons kh rest ih =>
    intro idx hmem
    rw [defaultBindingsGo]
    rw [List.find?_cons_of_neg _ (by simp; intro h; exact hmem (h ▸ List.mem_cons_self kh rest))]
    exact ih (idx + 1) (fun h => hmem (List.mem_cons_of_mem kh h))


theorem defaultLetsGo_seen (binds : List (String × String × Nat)) (k : String) :
    ∀ (l : List FieldMapping) (seen : List String), k ∈ seen →
      ((defaultLetsGo l binds seen).filter
        (fun p => tsToString p.2 = k)).length = 0 := by
  intro l
  induction l with
  | nil => intro seen _; rfl
  | cons f rest ih =>
    intro seen hseen
    rw [defaultLetsGo]
    rcases htr : f.source.transform with _ | _ | _ | _ | e <;> dsimp only
    case defaultExpr =>
      rcases hfind : binds.find? (fun p => p.1 = tsToString e.tokens) with _ | b <;>
        rw [hfind] <;> dsimp only
      · exact ih seen hseen
      · by_cases hs : tsToString e.tokens ∈ seen
        · rw [if_pos hs]
          exact ih seen hseen
        · rw [if_neg hs]
          have hne : ¬ (tsToString e.tokens = k) := fun h => hs (h ▸ hseen)
          rw [List.filter_cons, if_neg (by simp [hne])]
          exact ih _ (List.mem_cons_of_mem _ hseen)
    all_goals exact ih seen hseen

theorem defaultLetsGo_unbound (binds : List (String × String × Nat)) (k : String)
    (hnone : binds.find? (fun p => p.1 = k) = none) :
    ∀ (l : List FieldMapping) (seen : List String),
      ((defaultLetsGo l binds seen).filter
        (fun p => tsToString p.2 = k)).length = 0 := by
  intro l
  induction l with
  | nil => intro seen; rfl
  | cons f rest ih =>
    intro seen
    rw [defaultLetsGo]
    rcases htr : f.source.transform with _ | _ | _ | _ | e <;> dsimp only
    case defaultExpr =>
      rcases hfind : binds.find? (fun p => p.1 = tsToString e.tokens) with _ | b <;>
        rw [hfind] <;> dsimp only
      · exact ih seen
      · by_cases hs : tsToString e.tokens ∈ seen
        · rw [if_pos hs]
          exact ih seen
        · rw [if_neg hs]
          have hne : ¬ (tsToString e.tokens = k) := by
            intro h
            rw [h] at hfind
            rw [hnone] at hfind
            exact Option.noConfusion hfind
          rw [List.filter_cons, if_neg (by simp [hne])]
          exact ih _
    all_goals exact ih seen

theorem defaultLetsGo_once (binds : List (String × String × Nat)) (k : String)
    (hsome : (binds.find? (fun p => p.1 = k)).isSome) :
    ∀ (l : List FieldMapping) (seen : List String), k ∉ seen →
      (∃ f ∈ l, ∃ e, f.source.transform = Transform.defaultExpr e ∧
        tsToString e.tokens = k) →
      ((defaultLetsGo l binds seen).filter
        (fun p => tsToString p.2 = k)).length = 1 := by
  intro l
  induction l with
  | nil =>
    intro seen _ hex
    simp at hex
  | cons f rest ih =>
    intro seen hseen hex
    have hexrest : (∃ g ∈ rest, ∃ e2,
        g.source.transform = Transform.defaultExpr e2 ∧ tsToString e2.tokens = k) →
        ((defaultLetsGo rest binds seen).filter
          (fun p => tsToString p.2 = k)).length = 1 := ih seen hseen
    rw [defaultLetsGo]
    rcases htr : f.source.transform with _ | _ | _ | _ | e <;> dsimp only
    case defaultExpr =>
      by_cases hk : tsToString e.tokens = k
      · rw [hk]
        obtain ⟨b, hb⟩ := Option.isSome_iff_exists.mp hsome
        rw [hb]
        dsimp only
        rw [if_neg hseen]
        rw [List.filter_cons, if_pos (by simp [hk])]
        rw [List.length_cons]
        rw [defaultLetsGo_seen binds k rest (k :: seen) (List.mem_cons_self k seen)]
      · have hexr : ∃ g ∈ rest, ∃ e2,
            g.source.transform = Transform.defaultExpr e2 ∧ tsToString e2.tokens = k := by
          rcases hex with ⟨g, hg, e2, htr2, hk2⟩
          rcases List.mem_cons.mp hg with rfl | hg2
          · rw [htr] at htr2
            cases htr2
            exact absurd hk2 hk
          · exact ⟨g, hg2, e2, htr2, hk2⟩
        rcases hfind : binds.find? (fun p => p.1 = tsToString e.tokens) with _ | b <;>
          rw [hfind] <;> dsimp only
        · exact ih seen hseen hexr
        · by_cases hs : tsToString e.tokens ∈ seen
          · rw [if_pos hs]
            exact ih seen hseen hexr
          · rw [if_neg hs]
            rw [List.filter_cons, if_neg (by simp [hk])]
            refine ih (tsToString e.tokens :: seen) ?_ hexr
            intro h
            rcases List.mem_cons.mp h with h2 | h2
            · exact hk h2.symm
            · exact hseen h2
    all_goals
      refine hexrest ?_
      rcases hex with ⟨g, hg, e2, htr2, hk2⟩
      rcases List.mem_cons.mp hg with rfl | hg2
      · rw [htr] at htr2
        exact Transform.noConfusion htr2
      · exact ⟨g, hg2, e2, htr2, hk2⟩

theorem defaultLetsGo_names (binds : List (String × String × Nat)) :
    ∀ (l : List FieldMapping) (seen : List String) (p : String × List TokenTree),
      p ∈ defaultLetsGo l binds seen →
      ∃ cnt, binds.find? (fun q => q.1 = tsToString p.2) =
        some (tsToString p.2, p.1, cnt) := by
  intro l
  induction l with
  | nil => intro seen p hp; simp [defaultLetsGo] at hp
  | cons f rest ih =>
    intro seen p hp
    rw [defaultLetsGo] at hp
    rcases htr : f.source.transform with _ | _ | _ | _ | e <;> rw [htr] at hp <;>
      dsimp only at hp
    case defaultExpr =>
      rcases hfind : binds.find? (fun q => q.1 = tsToString e.tokens) with _ | b <;>
        rw [hfind] at hp <;> dsimp only at hp
      · exact ih seen p hp
      · by_cases hs : tsToString e.tokens ∈ seen
        · rw [if_pos hs] at hp
          exact ih seen p hp
        · rw [if_neg hs] at hp
          rcases List.mem_cons.mp hp with rfl | hp2
          · have hb1 : b.1 = tsToString e.tokens := by
              simpa using List.find?_some hfind
            refine ⟨b.2.2, ?_⟩
            rw [hfind, ← hb1]
          · exact ih _ p hp2
    all_goals exact ih seen p hp


/-- With distinct target-field names, a non-`WithExpr` field has no entry in
the with-expression binding map. -/
theorem with_expr_binding_none (fields : List FieldMapping) (f : FieldMapping)
    (hnodup : (fields.map (fun g => g.target_field)).Nodup)
    (hf : f ∈ fields) (hnw : f.source.transform.is_with_expr = false) :
    with_expr_binding fields f.target_field = none := by
  unfold with_expr_binding
  rw [if_neg]
  intro hany
  rcases List.any_eq_true.mp hany with ⟨g, hg, hpred⟩
  simp only [Bool.and_eq_true, decide_eq_true_eq] at hpred
  have hgf : g = f := List.inj_on_of_nodup_map hnodup hg hf hpred.1
  rw [hgf] at hpred
  rw [hpred.2] at hnw
  exact Bool.noConfusion hnw


/-- C7: a hoistable default expression (a call) whose text is requested by
more than one target field is bound exactly once (`__default_i`) and every
consuming field reads from that one temporary; default expressions used at
most once, or that are not calls, get no binding and are emitted inline. -/
theorem C7_default_expr_hoisting (fields : List FieldMapping) (mode : CloneMode)
    (u : String → Option FieldUsage) (is_ref : Bool) (idx : Nat)
    (f : FieldMapping) (e : SynExpr)
    (hnodup : (fields.map (fun g => g.target_field)).Nodup)
    (hf : f ∈ fields) (htr : f.source.transform = Transform.defaultExpr e) :
    (is_hoistable e = true →
      1 < (hoistableDefaultTexts fields).count (tsToString e.tokens) →
      ∃ name,
        get_binding_with_count fields e =
          some (name, (hoistableDefaultTexts fields).count (tsToString e.tokens)) ∧
        ((defaultLets fields).filter
          (fun p => tsToString p.2 = tsToString e.tokens)).map Prod.fst = [name] ∧
        (field_generator_field_init fields mode u f idx is_ref).take 3 =
          [.ident f.target_field, .punct ':', .ident name]) ∧
    ((hoistableDefaultTexts fields).count (tsToString e.tokens) ≤ 1 →
      get_binding_with_count fields e = none ∧
      ((defaultLets fields).filter
        (fun p => tsToString p.2 = tsToString e.tokens)).length = 0 ∧
      field_generator_field_init fields mode u f idx is_ref =
        [.ident f.target_field, .punct ':'] ++ e.tokens) ∧
    ((∀ g ∈ fields, ∀ e2, g.source.transform = Transform.defaultExpr e2 →
        tsToString e2.tokens = tsToString e.tokens → is_hoistable e2 = false) →
      (hoistableDefaultTexts fields).count (tsToString e.tokens) = 0) := by
  have hnw : f.source.transform.is_with_expr = false := by
    rw [htr]; rfl
  refine ⟨?_, ?_, ?_⟩
  · intro hhoist hcnt
    have hmem : tsToString e.tokens ∈ hoistableDefaultTexts fields := by
      refine List.mem_filterMap.mpr ⟨f, hf, ?_⟩
      rw [htr]
      simp [hhoist]
    have hkeys : tsToString e.tokens ∈ defaultBindingKeys fields :=
      (mem_defaultBindingKeys fields _).mpr ⟨hmem, hcnt⟩
    obtain ⟨name, hfind⟩ :=
      defaultBindingsGo_find_mem fields (tsToString e.tokens)
        (defaultBindingKeys fields) 0 hkeys
    have hfindB : (defaultBindings fields).find?
        (fun p => p.1 = tsToString e.tokens) =
        some (tsToString e.tokens, name,
          (hoistableDefaultTexts fields).count (tsToString e.tokens)) := by
      unfold defaultBindings
      exact hfind
    have hget : get_binding_with_count fields e =
        some (name, (hoistableDefaultTexts fields).count (tsToString e.tokens)) := by
      unfold get_binding_with_count
      rw [hfindB]
      rfl
    have hone := defaultLetsGo_once (defaultBindings fields) (tsToString e.tokens)
      (by rw [hfindB]; rfl) fields [] (by simp) ⟨f, hf, e, htr, rfl⟩
    obtain ⟨p, hp⟩ := List.length_eq_one.mp hone
    have hpmem : p ∈ (defaultLetsGo fields (defaultBindings fields) []).filter
        (fun q => tsToString q.2 = tsToString e.tokens) := by
      rw [hp]
      exact List.mem_singleton.mpr rfl
    have hpin : p ∈ defaultLetsGo fields (defaultBindings fields) [] :=
      List.mem_of_mem_filter hpmem
    have hppred : tsToString p.2 = tsToString e.tokens := by
      have := List.of_mem_filter hpmem
      simpa using this
    obtain ⟨cnt2, hfind2⟩ :=
      defaultLetsGo_names (defaultBindings fields) fields [] p hpin
    rw [hppred] at hfind2
    rw [hfindB] at hfind2
    have hp1 : p.1 = name := by
      have := (Option.some.injEq _ _).mp hfind2
      exact (congrArg (fun q => q.2.1) this).symm
    refine ⟨name, hget, ?_, ?_⟩
    · show ((defaultLetsGo fields (defaultBindings fields) []).filter
        (fun q => tsToString q.2 = tsToString e.tokens)).map Prod.fst = [name]
      rw [hp, List.map_singleton, hp1]
    · unfold field_generator_field_init
      dsimp only
      rw [with_expr_binding_none fields f hnodup hf hnw]
      rw [htr]
      dsimp only
      rw [hget]
      dsimp only
      by_cases hcl : (match f.source.clone_mode.getD mode with
          | CloneMode.move => false
          | CloneMode.copy => false
          | CloneMode.cloned => true
          | CloneMode.auto =>
              is_ref || decide (1 <
                (hoistableDefaultTexts fields).count (tsToString e.tokens))) = true
      · rw [if_pos hcl]; rfl
      · rw [if_neg hcl]; rfl
  · intro hle
    have hnotkeys : tsToString e.tokens ∉ defaultBindingKeys fields := by
      rw [mem_defaultBindingKeys]
      rintro ⟨_, h⟩
      omega
    have hfind0 : (defaultBindings fields).find?
        (fun p => p.1 = tsToString e.tokens) = none := by
      unfold defaultBindings
      exact defaultBindingsGo_find_none fields _ _ 0 hnotkeys
    have hget : get_binding_with_count fields e = none := by
      unfold get_binding_with_count
      rw [hfind0]
      rfl
    refine ⟨hget, defaultLetsGo_unbound _ _ hfind0 fields [], ?_⟩
    unfold field_generator_field_init
    dsimp only
    rw [with_expr_binding_none fields f hnodup hf hnw]
    rw [htr]
    dsimp only
    rw [hget]
    dsimp only
    unfold generate_field_init
    rw [htr]
  · intro hall
    rw [List.count_eq_zero]
    intro hmem
    rcases List.mem_filterMap.mp hmem with ⟨g, hg, hval⟩
    rcases htr2 : g.source.transform with _ | _ | _ | _ | e2 <;> rw [htr2] at hval <;>
      dsimp only at hval
    case defaultExpr =>
      by_cases hh : is_hoistable e2 = true
      · rw [if_pos hh] at hval
        have hk2 : tsToString e2.tokens = tsToString e.tokens :=
          Option.some.inj hval
        rw [hall g hg e2 htr2 hk2] at hh
        exact Bool.noConfusion hh
      · rw [if_neg hh] at hval
        exact Option.noConfusion hval
    all_goals exact Option.noConfusion hval


/-- A side-effecting generator call `now()` as a default expression. -/
def nowExpr : SynExpr :=
  { kind := .call, tokens := [.ident ("now"), .group .paren []] }

/-- Two fields both defaulting to the same `now()` call. -/
def c7Fields : List FieldMapping :=
  [⟨("a"), { field_name := none, transform := .defaultExpr nowExpr, clone_mode := none }⟩,
   ⟨("b"), { field_name := none, transform := .defaultExpr nowExpr, clone_mode := none }⟩]

/-- Witness for C7: with two fields sharing the default call `now()`, there is
exactly one `__default_0` binding and the first field initializer reads it. -/
theorem C7_default_expr_hoisting_witness :
    ∃ name,
      get_binding_with_count c7Fields nowExpr =
        some (name, (hoistableDefaultTexts c7Fields).count (tsToString nowExpr.tokens)) ∧
      ((defaultLets c7Fields).filter
        (fun p => tsToString p.2 = tsToString nowExpr.tokens)).map Prod.fst = [name] ∧
      (field_generator_field_init c7Fields CloneMode.auto (fun _ => none)
        ⟨("a"), { field_name := none, transform := .defaultExpr nowExpr,
                  clone_mode := none }⟩ 0 false).take 3 =
        [.ident ("a"), .punct ':', .ident name] :=
  (C7_default_expr_hoisting c7Fields CloneMode.auto (fun _ => none) false 0
    ⟨("a"), { field_name := none, transform := .defaultExpr nowExpr, clone_mode := none }⟩
    nowExpr (by simp [c7Fields]) (by unfold c7Fields; exact List.mem_cons_self _ _)
    rfl).1 rfl
    (by simp [hoistableDefaultTexts, c7Fields, nowExpr, is_hoistable,
      tsToString, ttToString, List.count_cons])

end Relate
